import Mathlib

/-!
# zramd metrics: running statistics, persistence and sampling

A verification development for the metrics collector of zramd
(`internal/metrics/types.go`, `storage.go`, `collector.go` and
`cmd/zramd-metrics/main.go`).

Conventions of the embedding:

* `uint64` values are natural numbers; every arithmetic operation the source performs
  on them is followed by an explicit `% 2 ^ 64`.
* `float64` values are modelled by `F64`: a finite value is the rational number it
  denotes, and every operation rounds its exact result to binary64 with
  round-to-nearest, ties-to-even (`F64.round`). The two zeros are identified; the
  program never divides by a zero that could be negative.
* `time.Now().Hour()` is an input of `UpdateStats` (a `Fin 24`).
* A Go `string` is a sequence of bytes (`GoString`); the library functions on strings
  decode UTF-8 as Go does, a byte that is not valid UTF-8 being the rune U+FFFD of
  width 1. A Lean string literal in a Go string position is the Go constant with that
  text.
* The file system is an explicit state; the outcome of every `os.WriteFile` call is an
  input chosen by the environment.
* `encoding/json` is modelled on document trees (`Json`), not on text: `marshal` builds
  the tree the struct tags of `ZramStats` describe, `unmarshal` stores the members of a
  tree into the fields tagged with their keys. What the encoder does to a value before
  it prints it is part of `marshal`: a string is coerced to valid UTF-8, NaN and the
  infinities are rejected, a timestamp outside the years 0..9999 is rejected. The
  printing of a tree as indented text and the parsing of that text are taken to be
  inverse to each other.
* A Go panic is an explicit result (`Run.panic`).
-/

/-! ## float64 -/

/-- A float64 value: a finite rational, an infinity with its sign, or NaN. -/
inductive F64 where
  | fin (q : ℚ)
  | inf (neg : Bool)
  | nan
deriving DecidableEq

namespace F64

/-- Nearest integer to `a / b` (for `0 < b`), ties to the even neighbour. -/
def roundHalfEven (a b : Nat) : Nat :=
  let q := a / b
  let r := a % b
  if 2 * r < b then q
  else if b < 2 * r then q + 1
  else if q % 2 = 0 then q else q + 1

/-- Binary logarithm by halving, with `fuel` halvings available. -/
def log2Fuel : Nat → Nat → Nat
  | 0, _ => 0
  | fuel + 1, n => if n < 2 then 0 else log2Fuel fuel (n / 2) + 1

/-- Floor of the binary logarithm of `n` (0 for `n = 0`). -/
def ilog2 (n : Nat) : Nat := log2Fuel n n

/-- Floor of the binary logarithm of the positive rational `n / d`. -/
def floorLog2 (n d : Nat) : Int :=
  let e0 : Int := (ilog2 n : Int) - (ilog2 d : Int)
  if 0 ≤ e0 then
    (if d * 2 ^ e0.toNat ≤ n then e0 else e0 - 1)
  else
    (if d ≤ n * 2 ^ (-e0).toNat then e0 else e0 - 1)

/-- Rounding of the positive rational `n / d`, with sign `neg`, to binary64: 53
significant bits, minimum exponent -1022 (gradual underflow), overflow to infinity. -/
def roundPos (neg : Bool) (n d : Nat) : F64 :=
  let e := max (floorLog2 n d) (-1022)
  let k := e - 52
  let m := if 0 ≤ k then roundHalfEven n (d * 2 ^ k.toNat)
           else roundHalfEven (n * 2 ^ (-k).toNat) d
  if 1024 ≤ e ∨ (e = 1023 ∧ m = 2 ^ 53) then inf neg
  else
    let v : ℚ := if 0 ≤ k then ((m * 2 ^ k.toNat : Nat) : ℚ)
                 else (m : ℚ) / ((2 ^ (-k).toNat : Nat) : ℚ)
    fin (if neg then -v else v)

/-- Rounding of an exact rational result to binary64. -/
def round (q : ℚ) : F64 :=
  if q = 0 then fin 0 else roundPos (decide (q < 0)) q.num.natAbs q.den

/-- The conversion `float64(n)` of a uint64. -/
def ofUInt64 (n : Nat) : F64 := round (n : ℚ)

/-- The constant `1.0`. -/
def one : F64 := fin 1

/-- The float64 quotient `a / b`; division by zero yields an infinity or NaN, it never
fails. -/
def div : F64 → F64 → F64
  | fin a, fin b =>
      if b = 0 then (if a = 0 then nan else inf (decide (a < 0))) else round (a / b)
  | fin _, inf _ => fin 0
  | inf n, fin b => inf (xor n (decide (b < 0)))
  | inf _, inf _ => nan
  | nan, _ => nan
  | _, nan => nan

/-- The float64 sum `a + b`. -/
def add : F64 → F64 → F64
  | fin a, fin b => round (a + b)
  | fin _, inf n => inf n
  | inf n, fin _ => inf n
  | inf m, inf n => if m = n then inf m else nan
  | nan, _ => nan
  | _, nan => nan

/-- The comparison `a < b`; false as soon as one side is NaN. -/
def lt : F64 → F64 → Bool
  | fin a, fin b => decide (a < b)
  | fin _, inf n => !n
  | inf n, fin _ => n
  | inf m, inf n => m && !n
  | nan, _ => false
  | _, nan => false

/-- The comparison `a <= b`; false as soon as one side is NaN. -/
def le : F64 → F64 → Bool
  | fin a, fin b => decide (a ≤ b)
  | fin _, inf n => !n
  | inf n, fin _ => n
  | inf m, inf n => m || !n
  | nan, _ => false
  | _, nan => false

/-- The comparison `a > b`. -/
def gt (a b : F64) : Bool := lt b a

/-- Neither NaN nor an infinity. -/
def isFinite : F64 → Bool
  | fin _ => true
  | _ => false

end F64

/-! ## Go strings -/

/-- A Go `string`: a sequence of bytes, which need not be valid UTF-8. -/
structure GoString where
  bytes : List UInt8
deriving DecidableEq

/-- The Go string constant with the given text: its UTF-8 encoding. -/
def goString (s : String) : GoString := ⟨(s.data.map String.utf8EncodeChar).flatten⟩

instance : Coe String GoString := ⟨goString⟩

/-- The byte lies in the closed range `lo..hi`. -/
def byteIn (b : UInt8) (lo hi : Nat) : Bool := decide (lo ≤ b.toNat) && decide (b.toNat ≤ hi)

/-- Lowest second byte UTF-8 accepts after the first byte `n0` (the accept ranges of
package `utf8`). -/
def secondByteLo (n0 : Nat) : Nat := if n0 = 224 then 160 else if n0 = 240 then 144 else 128

/-- Highest second byte UTF-8 accepts after the first byte `n0`. -/
def secondByteHi (n0 : Nat) : Nat := if n0 = 237 then 159 else if n0 = 244 then 143 else 191

/-- The function `utf8.DecodeRune`: the code point at the head of the bytes and its
width; `(U+FFFD, 1)` when the head is not a valid UTF-8 encoding, `(U+FFFD, 0)` when
there are no bytes. -/
def decodeRune : List UInt8 → Nat × Nat
  | [] => (65533, 0)
  | b0 :: rest =>
    let n0 := b0.toNat
    if n0 < 128 then (n0, 1)
    else if 194 ≤ n0 ∧ n0 ≤ 223 then
      match rest with
      | b1 :: _ =>
        if byteIn b1 128 191 then ((n0 - 192) * 64 + (b1.toNat - 128), 2) else (65533, 1)
      | _ => (65533, 1)
    else if 224 ≤ n0 ∧ n0 ≤ 239 then
      match rest with
      | b1 :: b2 :: _ =>
        if byteIn b1 (secondByteLo n0) (secondByteHi n0) && byteIn b2 128 191 then
          ((n0 - 224) * 4096 + (b1.toNat - 128) * 64 + (b2.toNat - 128), 3)
        else (65533, 1)
      | _ => (65533, 1)
    else if 240 ≤ n0 ∧ n0 ≤ 244 then
      match rest with
      | b1 :: b2 :: b3 :: _ =>
        if byteIn b1 (secondByteLo n0) (secondByteHi n0) && byteIn b2 128 191
            && byteIn b3 128 191 then
          ((n0 - 240) * 262144 + (b1.toNat - 128) * 4096 + (b2.toNat - 128) * 64
            + (b3.toNat - 128), 4)
        else (65533, 1)
      | _ => (65533, 1)
    else (65533, 1)

/-- One step of `for _, r := range s`: the code point and the bytes it was read from. -/
structure Rune where
  code : Nat
  bytes : List UInt8
deriving DecidableEq

/-- The rune stands for a byte that is not valid UTF-8: `utf8.RuneError` of width 1. -/
def Rune.invalid (r : Rune) : Bool := r.code == 65533 && r.bytes.length == 1

/-- The runes of a byte sequence, with `fuel` decoding steps available. -/
def runesFuel : Nat → List UInt8 → List Rune
  | 0, _ => []
  | _, [] => []
  | fuel + 1, b :: rest =>
    ⟨(decodeRune (b :: rest)).1, (b :: rest).take (decodeRune (b :: rest)).2⟩
      :: runesFuel fuel ((b :: rest).drop (decodeRune (b :: rest)).2)

/-- The runes of a Go string, as `range` yields them. -/
def GoString.runes (s : GoString) : List Rune := runesFuel s.bytes.length s.bytes

/-- The function `utf8.ValidString`. -/
def ValidString (s : GoString) : Bool := s.runes.all (fun r => !r.invalid)

/-- The string `encoding/json` writes and reads for a Go string: every byte that is not
valid UTF-8 is replaced by U+FFFD (the bytes EF BF BD). -/
def toValidUTF8 (s : GoString) : GoString :=
  ⟨(s.runes.map (fun r => if r.invalid then [239, 191, 189] else r.bytes)).flatten⟩

/-- A rune whose bytes decode to it in front of any other bytes, and which does not
stand for an invalid byte. -/
def GoodRune (r : Rune) : Prop :=
  r.bytes ≠ [] ∧ r.invalid = false ∧
  ∀ tail, decodeRune (r.bytes ++ tail) = (r.code, r.bytes.length)

/-! ## The statistics record (`types.go`) -/

/-- Number of values of a uint64. -/
def u64 : Nat := 2 ^ 64

/-- A `time.Time` as RFC 3339 persists it: seconds and nanoseconds since the Unix epoch
and the zone offset in minutes east of UTC. The monotonic clock reading that
`time.Now()` attaches and the name of the zone are not part of the value; the JSON form
does not carry them. -/
structure Time where
  unixSec : Int
  nsec : Nat
  offsetMinutes : Int
deriving DecidableEq

/-- The zero `time.Time` (January 1, year 1, 00:00:00 UTC). -/
def Time.zero : Time := ⟨-62135596800, 0, 0⟩

/-- Field `SystemInfo` of `ZramStats`. -/
structure SystemInfoT where
  TotalMemory : Nat
  KernelVersion : GoString
  StartTime : Time
deriving DecidableEq

/-- Field `Config` of `ZramStats`. -/
structure ConfigT where
  Algorithm : GoString
  InitialSize : Nat
deriving DecidableEq

/-- Field `CompressionStats` of `ZramStats`. -/
structure CompressionStatsT where
  BestRatio : F64
  WorstRatio : F64
  TotalRatio : F64
  SampleCount : Nat
  ExcellentCount : Nat
  GoodCount : Nat
  FairCount : Nat
  PoorCount : Nat
deriving DecidableEq

/-- Field `MemoryStats` of `ZramStats`. -/
structure MemoryStatsT where
  PeakUsage : Nat
  MinUsage : Nat
  TotalUsage : Nat
  LowCount : Nat
  MediumCount : Nat
  HighCount : Nat
  CriticalCount : Nat
deriving DecidableEq

/-- Field `SystemImpact` of `ZramStats`. -/
structure SystemImpactT where
  OOMEvents : Nat
  MaxSwapUsed : Nat
  SwapPressureTime : Nat
deriving DecidableEq

/-- Field `TimeAnalysis` of `ZramStats`: two arrays `[24]uint64`. -/
structure TimeAnalysisT where
  HourlyUsage : Fin 24 → Nat
  HourlySamples : Fin 24 → Nat
deriving DecidableEq

/-- The aggregated statistics `ZramStats`. -/
structure ZramStats where
  SystemInfo : SystemInfoT
  Config : ConfigT
  CompressionStats : CompressionStatsT
  MemoryStats : MemoryStatsT
  SystemImpact : SystemImpactT
  TimeAnalysis : TimeAnalysisT
deriving DecidableEq

/-- The Go zero value `ZramStats{}`. -/
def ZramStats.zero : ZramStats where
  SystemInfo := ⟨0, "", Time.zero⟩
  Config := ⟨"", 0⟩
  CompressionStats := ⟨F64.fin 0, F64.fin 0, F64.fin 0, 0, 0, 0, 0, 0⟩
  MemoryStats := ⟨0, 0, 0, 0, 0, 0, 0⟩
  SystemImpact := ⟨0, 0, 0⟩
  TimeAnalysis := ⟨fun _ => 0, fun _ => 0⟩

/-- The constant `0.2` as a float64. -/
def lit02 : F64 := F64.round (1 / 5)
/-- The constant `0.3` as a float64. -/
def lit03 : F64 := F64.round (3 / 10)
/-- The constant `0.4` as a float64. -/
def lit04 : F64 := F64.round (2 / 5)
/-- The constant `0.25` as a float64. -/
def lit025 : F64 := F64.round (1 / 4)
/-- The constant `0.50` as a float64. -/
def lit050 : F64 := F64.round (1 / 2)
/-- The constant `0.75` as a float64. -/
def lit075 : F64 := F64.round (3 / 4)

/-- The compression ratio computed at the top of `UpdateStats`: the float64 quotient,
replaced by `1.0` when `origSize == 0`. -/
def sampleRatio (origSize compSize : Nat) : F64 :=
  let ratio := F64.div (F64.ofUInt64 compSize) (F64.ofUInt64 origSize)
  if origSize = 0 then F64.one else ratio

/-- The compression part of `UpdateStats` (best, worst, total, count, distribution). -/
def updateCompression (c : CompressionStatsT) (ratio : F64) : CompressionStatsT :=
  let c1 := if c.SampleCount = 0 ∨ F64.lt ratio c.BestRatio = true
    then { c with BestRatio := ratio } else c
  let c2 := if F64.gt ratio c1.WorstRatio = true then { c1 with WorstRatio := ratio } else c1
  let c3 := { c2 with TotalRatio := F64.add c2.TotalRatio ratio }
  let c4 := { c3 with SampleCount := (c3.SampleCount + 1) % u64 }
  if F64.le ratio lit02 = true then { c4 with ExcellentCount := (c4.ExcellentCount + 1) % u64 }
  else if F64.le ratio lit03 = true then { c4 with GoodCount := (c4.GoodCount + 1) % u64 }
  else if F64.le ratio lit04 = true then { c4 with FairCount := (c4.FairCount + 1) % u64 }
  else { c4 with PoorCount := (c4.PoorCount + 1) % u64 }

/-- The memory part of `UpdateStats` (min, peak, total, distribution). -/
def updateMemory (m : MemoryStatsT) (memUsed initialSize : Nat) : MemoryStatsT :=
  let m1 := if m.MinUsage = 0 ∨ memUsed < m.MinUsage then { m with MinUsage := memUsed } else m
  let m2 := if memUsed > m1.PeakUsage then { m1 with PeakUsage := memUsed } else m1
  let m3 := { m2 with TotalUsage := (m2.TotalUsage + memUsed) % u64 }
  let usagePercent := F64.div (F64.ofUInt64 memUsed) (F64.ofUInt64 initialSize)
  if F64.le usagePercent lit025 = true then { m3 with LowCount := (m3.LowCount + 1) % u64 }
  else if F64.le usagePercent lit050 = true then
    { m3 with MediumCount := (m3.MediumCount + 1) % u64 }
  else if F64.le usagePercent lit075 = true then
    { m3 with HighCount := (m3.HighCount + 1) % u64 }
  else { m3 with CriticalCount := (m3.CriticalCount + 1) % u64 }

/-- The hourly part of `UpdateStats`, for the hour `time.Now().Hour()` returned. -/
def updateHourly (t : TimeAnalysisT) (memUsed : Nat) (hour : Fin 24) : TimeAnalysisT :=
  { HourlyUsage := Function.update t.HourlyUsage hour ((t.HourlyUsage hour + memUsed) % u64)
    HourlySamples := Function.update t.HourlySamples hour ((t.HourlySamples hour + 1) % u64) }

/-- The method `UpdateStats`: folds one measurement into the running statistics. -/
def UpdateStats (s : ZramStats) (origSize compSize memUsed : Nat) (hour : Fin 24) :
    ZramStats :=
  { s with
    CompressionStats := updateCompression s.CompressionStats (sampleRatio origSize compSize)
    MemoryStats := updateMemory s.MemoryStats memUsed s.Config.InitialSize
    TimeAnalysis := updateHourly s.TimeAnalysis memUsed hour }

/-- One call of `UpdateStats`: its three arguments and the hour of the call. -/
structure Tick where
  origSize : Nat
  compSize : Nat
  memUsed : Nat
  hour : Fin 24
deriving DecidableEq

/-- The call of `UpdateStats` a tick stands for. -/
def Tick.apply (s : ZramStats) (t : Tick) : ZramStats :=
  UpdateStats s t.origSize t.compSize t.memUsed t.hour

/-- The ratio `UpdateStats` computes for a tick. -/
def Tick.ratio (t : Tick) : F64 := sampleRatio t.origSize t.compSize

/-- A sequence of `UpdateStats` calls, oldest first. -/
def applyAll (s : ZramStats) (ts : List Tick) : ZramStats := ts.foldl Tick.apply s

/-- The statistics `InitializeStats` builds: zero everywhere except the system
information and the configuration. -/
def freshStats (memTotal : Nat) (kernelVersion : GoString) (now : Time)
    (algorithm : GoString) (initialSize : Nat) : ZramStats :=
  { ZramStats.zero with
    SystemInfo := ⟨memTotal, kernelVersion, now⟩
    Config := ⟨algorithm, initialSize⟩ }

/-! ## Predicates on the counters -/

/-- Exactly one of the four compression buckets is one higher, the others are equal. -/
def bumpsOneBucket (c d : CompressionStatsT) : Prop :=
  (d.ExcellentCount = c.ExcellentCount + 1 ∧ d.GoodCount = c.GoodCount ∧
      d.FairCount = c.FairCount ∧ d.PoorCount = c.PoorCount) ∨
  (d.ExcellentCount = c.ExcellentCount ∧ d.GoodCount = c.GoodCount + 1 ∧
      d.FairCount = c.FairCount ∧ d.PoorCount = c.PoorCount) ∨
  (d.ExcellentCount = c.ExcellentCount ∧ d.GoodCount = c.GoodCount ∧
      d.FairCount = c.FairCount + 1 ∧ d.PoorCount = c.PoorCount) ∨
  (d.ExcellentCount = c.ExcellentCount ∧ d.GoodCount = c.GoodCount ∧
      d.FairCount = c.FairCount ∧ d.PoorCount = c.PoorCount + 1)

/-- Sum of the four compression buckets. -/
def bucketSum (c : CompressionStatsT) : Nat :=
  c.ExcellentCount + c.GoodCount + c.FairCount + c.PoorCount

/-- The compression counters agree with a number `n` of samples: the sample count is `n`
and so is the sum of the four buckets. -/
def CountInv (c : CompressionStatsT) (n : Nat) : Prop :=
  c.SampleCount = n ∧ bucketSum c = n


/-- A float64 that is a number greater than or equal to zero (in particular not NaN). -/
def F64.OrdNonneg (r : F64) : Prop := (∃ q : ℚ, 0 ≤ q ∧ r = F64.fin q) ∨ r = F64.inf false

/-- All three arguments of the update are uint64 values. -/
def Tick.valid (t : Tick) : Prop := t.origSize < u64 ∧ t.compSize < u64 ∧ t.memUsed < u64

instance (t : Tick) : Decidable t.valid :=
  inferInstanceAs (Decidable (t.origSize < u64 ∧ t.compSize < u64 ∧ t.memUsed < u64))

/-- The best and worst ratio bracket the ratios of the updates `seen` so far. -/
def RatioInv (c : CompressionStatsT) (seen : List Tick) : Prop :=
  c.WorstRatio ≠ F64.nan ∧ F64.le (F64.fin 0) c.WorstRatio = true ∧
  (seen ≠ [] → c.BestRatio ≠ F64.nan) ∧
  ∀ t ∈ seen, F64.le c.BestRatio t.ratio = true ∧ F64.le t.ratio c.WorstRatio = true


/-- A statistics value whose `total_ratio` is 2^53 and whose `poor_count` is 2^64 - 1. -/
def saturatedStats : ZramStats :=
  { ZramStats.zero with
    CompressionStats :=
      { ZramStats.zero.CompressionStats with
        TotalRatio := F64.fin 9007199254740992
        SampleCount := 18446744073709551615
        PoorCount := 18446744073709551615 } }

/-! ## Sampling (`collector.go`) -/

/-- Result of a Go function that returns a value or an error, or panics. -/
inductive Run (α : Type) where
  | ok (a : α)
  | err (msg : String)
  | panic (msg : String)
deriving DecidableEq

/-- Equality of results is decidable. -/
instance instDecidableEqExcept {ε α : Type} [DecidableEq ε] [DecidableEq α] :
    DecidableEq (Except ε α)
  | .ok a, .ok b =>
    if h : a = b then isTrue (by rw [h]) else isFalse (fun h2 => h (Except.ok.inj h2))
  | .error a, .error b =>
    if h : a = b then isTrue (by rw [h]) else isFalse (fun h2 => h (Except.error.inj h2))
  | .ok _, .error _ => isFalse (fun h => Except.noConfusion h)
  | .error _, .ok _ => isFalse (fun h => Except.noConfusion h)

/-- White space in the sense of `unicode.IsSpace`, for a code point. -/
def isSpace (n : Nat) : Bool :=
  (9 ≤ n && n ≤ 13) || n == 32 || n == 133 || n == 160 || n == 5760 ||
  (8192 ≤ n && n ≤ 8202) || n == 8232 || n == 8233 || n == 8239 || n == 8287 || n == 12288

/-- Scanning loop of `strings.Fields` over the runes of the string: `cur` holds the
bytes of the field being read. -/
def fieldsAux : List Rune → List UInt8 → List GoString
  | [], cur => if cur.isEmpty then [] else [⟨cur⟩]
  | r :: rs, cur =>
    if isSpace r.code then
      (if cur.isEmpty then fieldsAux rs [] else ⟨cur⟩ :: fieldsAux rs [])
    else fieldsAux rs (cur ++ r.bytes)

/-- The function `strings.Fields`: the maximal runs of runes that are not white space.
The slice it returns has a capacity equal to its length. -/
def Fields (s : GoString) : List GoString := fieldsAux s.runes []

/-- The function `strings.TrimSpace`: the string without its leading and trailing white
space runes. -/
def TrimSpace (s : GoString) : GoString :=
  ⟨((((s.runes.dropWhile (fun r => isSpace r.code)).reverse.dropWhile
    (fun r => isSpace r.code)).reverse).map Rune.bytes).flatten⟩

/-- Value of a decimal digit. -/
def digitVal (b : UInt8) : Option Nat :=
  if 48 ≤ b.toNat ∧ b.toNat ≤ 57 then some (b.toNat - 48) else none

/-- Reads decimal digits onto the accumulator `acc`. -/
def parseDigits : List UInt8 → Nat → Option Nat
  | [], acc => some acc
  | b :: bs, acc =>
    match digitVal b with
    | none => none
    | some d => parseDigits bs (acc * 10 + d)

/-- The call `strconv.ParseUint(s, 10, 64)`: a non-empty string of decimal digits whose
value fits a uint64. -/
def ParseUint (s : GoString) : Except String Nat :=
  match s.bytes with
  | [] => .error "invalid syntax"
  | bs =>
    match parseDigits bs 0 with
    | none => .error "invalid syntax"
    | some v => if v < u64 then .ok v else .error "value out of range"

/-- The files of the sysfs directories `/sys/block/zram<deviceID>`: the content of the
file `name` of device `deviceID`, or `none` when it cannot be read. -/
abbrev Sysfs := Int → String → Option GoString

/-- The loop `for i, field := range fields[:3]` of `readMMStats` over the remaining
fields, storing every parsed value at index `i` of `stats`. -/
def parseFields : List GoString → Nat → List Nat → Run (List Nat)
  | [], _, stats => .ok stats
  | field :: rest, i, stats =>
    match ParseUint field with
    | .error e => .err ("parsing mm_stat field: " ++ e)
    | .ok v => parseFields rest (i + 1) (stats.set i v)

/-- The function `readMMStats`. The slice expression `fields[:3]` panics when the
capacity of `fields`, which is its length, is below 3. -/
def readMMStats (sys : Sysfs) (deviceID : Int) : Run (List Nat) :=
  match sys deviceID "mm_stat" with
  | none => .err "open mm_stat"
  | some data =>
    let fields := Fields data
    let stats := List.replicate fields.length 0
    if fields.length < 3 then .panic "slice bounds out of range [:3]"
    else parseFields (fields.take 3) 0 stats

/-- The function `ReadSysfsValue`. -/
def ReadSysfsValue (sys : Sysfs) (deviceID : Int) (metric : String) : Except String Nat :=
  match sys deviceID metric with
  | none => .error ("open " ++ metric)
  | some data =>
    match ParseUint (TrimSpace data) with
    | .error e => .error ("parsing " ++ metric ++ ": " ++ e)
    | .ok v => .ok v

/-- The function `CollectMetrics`: `mm_stat` first, the three separate files when
`readMMStats` returns an error. A panic of `readMMStats` is not recovered. -/
def CollectMetrics (sys : Sysfs) (deviceID : Int) : Run (Nat × Nat × Nat) :=
  match readMMStats sys deviceID with
  | .panic m => .panic m
  | .ok stats =>
    match stats with
    | a :: b :: c :: _ => .ok (a, b, c)
    | _ => .panic "index out of range"
  | .err _ =>
    match ReadSysfsValue sys deviceID "orig_data_size" with
    | .error e => .err ("reading original size: " ++ e)
    | .ok origSize =>
      match ReadSysfsValue sys deviceID "compr_data_size" with
      | .error e => .err ("reading compressed size: " ++ e)
      | .ok comprSize =>
        match ReadSysfsValue sys deviceID "mem_used_total" with
        | .error e => .err ("reading memory used: " ++ e)
        | .ok memUsed => .ok (origSize, comprSize, memUsed)

/-- A sysfs in which only `mm_stat` of device 0 can be read, with the given content. -/
def sysfsWithMMStat (content : GoString) : Sysfs :=
  fun deviceID name => if deviceID = 0 ∧ name = "mm_stat" then some content else none

/-! ## Persistence (`storage.go`) -/

/-- A JSON document as `encoding/json` reads and writes it. A number is kept as the
value its decoder yields: `uint` is a literal without sign, fraction or exponent, `float`
any other number literal, standing for the float64 nearest to it (the encoder writes a
float64 in the shortest form that reads back as the same float64). `time` is a JSON
string that holds the RFC 3339 text of a timestamp, `str` any other JSON string, by the
bytes of the Go string it stands for. -/
inductive Json where
  | null
  | uint (n : Nat)
  | float (f : F64)
  | str (s : GoString)
  | time (t : Time)
  | arr (items : List Json)
  | obj (members : List (String × Json))

/-- Content of a file: a complete JSON document, or bytes that do not parse as JSON
(such as the part of a document a failed write left behind). -/
inductive FileData where
  | doc (j : Json)
  | torn

/-- The file system: the regular files by path, and the log of the paths written, oldest
first. -/
structure FS where
  files : String → Option FileData
  writes : List String

/-- What the environment does with one `os.WriteFile` call: it succeeds, it fails
before the file is opened (the file is untouched), or it fails after the file was
truncated (the file holds no complete document any more). -/
inductive WriteOutcome where
  | ok
  | openFails (msg : String)
  | shortWrite (msg : String)
deriving DecidableEq

/-- The constant `metricsDir`. -/
def metricsDir : String := "/var/log/zramd/metrics"
/-- The constant `metricsFile`. -/
def metricsFile : String := "zram_stats.json"
/-- The constant `backupFileExt`. -/
def backupFileExt : String := ".bak"

/-- The function `getStatsPath`: `filepath.Join(metricsDir, metricsFile)`. -/
def getStatsPath : String := metricsDir ++ "/" ++ metricsFile

/-- The path of the backup file, `getStatsPath() + backupFileExt`. -/
def backupPath : String := getStatsPath ++ backupFileExt

/-- The call `os.WriteFile(path, data, metricsFileMode)` under the given outcome. -/
def osWriteFile (fs : FS) (path : String) (data : Json) :
    WriteOutcome → FS × Except String Unit
  | .ok =>
    ({ files := Function.update fs.files path (some (FileData.doc data))
       writes := fs.writes ++ [path] }, .ok ())
  | .openFails msg => (fs, .error msg)
  | .shortWrite msg =>
    ({ files := Function.update fs.files path (some FileData.torn)
       writes := fs.writes ++ [path] }, .error msg)

/-- `Time.MarshalJSON` succeeds when the year, in the zone of the timestamp, lies in
0..9999 and the zone offset is below 24 hours. -/
def Time.marshalable (t : Time) : Bool :=
  decide (-62167219200 ≤ t.unixSec + 60 * t.offsetMinutes) &&
    decide (t.unixSec + 60 * t.offsetMinutes < 253402300800) &&
    decide (-1440 < t.offsetMinutes) && decide (t.offsetMinutes < 1440)

/-- Encoding of a float64: `json.Marshal` rejects NaN and the infinities. -/
def encodeFloat (f : F64) : Except String Json :=
  if f.isFinite then .ok (Json.float f) else .error "json: unsupported value"

/-- Encoding of a `time.Time`. -/
def encodeTime (t : Time) : Except String Json :=
  if t.marshalable then .ok (Json.time t) else .error "Time.MarshalJSON: year outside of range"

/-- Encoding of a `[24]uint64`. -/
def encodeArray (a : Fin 24 → Nat) : Json := Json.arr ((List.ofFn a).map Json.uint)

/-- The call `json.MarshalIndent(stats, "", "  ")`: the object with the members the
struct tags of `ZramStats` name, in the order of the fields. A string is written coerced
to valid UTF-8. -/
def marshal (s : ZramStats) : Except String Json := do
  let startTime ← encodeTime s.SystemInfo.StartTime
  let best ← encodeFloat s.CompressionStats.BestRatio
  let worst ← encodeFloat s.CompressionStats.WorstRatio
  let total ← encodeFloat s.CompressionStats.TotalRatio
  pure (Json.obj [
    ("system_info", Json.obj [
      ("total_memory", Json.uint s.SystemInfo.TotalMemory),
      ("kernel_version", Json.str (toValidUTF8 s.SystemInfo.KernelVersion)),
      ("start_time", startTime)]),
    ("config", Json.obj [
      ("algorithm", Json.str (toValidUTF8 s.Config.Algorithm)),
      ("initial_size", Json.uint s.Config.InitialSize)]),
    ("compression_stats", Json.obj [
      ("best_ratio", best),
      ("worst_ratio", worst),
      ("total_ratio", total),
      ("sample_count", Json.uint s.CompressionStats.SampleCount),
      ("excellent_count", Json.uint s.CompressionStats.ExcellentCount),
      ("good_count", Json.uint s.CompressionStats.GoodCount),
      ("fair_count", Json.uint s.CompressionStats.FairCount),
      ("poor_count", Json.uint s.CompressionStats.PoorCount)]),
    ("memory_stats", Json.obj [
      ("peak_usage", Json.uint s.MemoryStats.PeakUsage),
      ("min_usage", Json.uint s.MemoryStats.MinUsage),
      ("total_usage", Json.uint s.MemoryStats.TotalUsage),
      ("low_count", Json.uint s.MemoryStats.LowCount),
      ("medium_count", Json.uint s.MemoryStats.MediumCount),
      ("high_count", Json.uint s.MemoryStats.HighCount),
      ("critical_count", Json.uint s.MemoryStats.CriticalCount)]),
    ("system_impact", Json.obj [
      ("oom_events", Json.uint s.SystemImpact.OOMEvents),
      ("max_swap_used", Json.uint s.SystemImpact.MaxSwapUsed),
      ("swap_pressure_time", Json.uint s.SystemImpact.SwapPressureTime)]),
    ("time_analysis", Json.obj [
      ("hourly_usage", encodeArray s.TimeAnalysis.HourlyUsage),
      ("hourly_samples", encodeArray s.TimeAnalysis.HourlySamples)])])

/-- Decoding into a uint64 that currently holds `cur`; `null` leaves it as it is. -/
def decodeUint (cur : Nat) : Json → Except String Nat
  | .null => .ok cur
  | .uint n => if n < u64 then .ok n else .error "json: cannot unmarshal number into uint64"
  | _ => .error "json: cannot unmarshal into uint64"

/-- Decoding into a float64 that currently holds `cur`. -/
def decodeFloat (cur : F64) : Json → Except String F64
  | .null => .ok cur
  | .float f => if f.isFinite then .ok f else .error "json: cannot unmarshal number into float64"
  | .uint n =>
    if (F64.ofUInt64 n).isFinite then .ok (F64.ofUInt64 n)
    else .error "json: cannot unmarshal number into float64"
  | _ => .error "json: cannot unmarshal into float64"

/-- Decoding into a string that currently holds `cur`; bytes of the JSON string that are
not valid UTF-8 are read as U+FFFD. A string that spells a timestamp is not expected in
a string field and is reported as an error here. -/
def decodeString (cur : GoString) : Json → Except String GoString
  | .null => .ok cur
  | .str s => .ok (toValidUTF8 s)
  | _ => .error "json: cannot unmarshal into string"

/-- Decoding into a `time.Time` that currently holds `cur`. -/
def decodeTime (cur : Time) : Json → Except String Time
  | .null => .ok cur
  | .time t => .ok t
  | _ => .error "Time.UnmarshalJSON: input is not a JSON string in RFC 3339 format"

/-- Decoding of the items of a JSON array into uint64 values. -/
def decodeUints : List Json → Except String (List Nat)
  | [] => .ok []
  | j :: js =>
    match decodeUint 0 j with
    | .error e => .error e
    | .ok n =>
      match decodeUints js with
      | .error e => .error e
      | .ok ns => .ok (n :: ns)

/-- Decoding into a `[24]uint64` that currently holds `cur`: items beyond the 24th are
dropped, missing items are zero. -/
def decodeArray (cur : Fin 24 → Nat) : Json → Except String (Fin 24 → Nat)
  | .null => .ok cur
  | .arr items =>
    match decodeUints (items.take 24) with
    | .error e => .error e
    | .ok ns => .ok (fun i => ns.getD i.val 0)
  | _ => .error "json: cannot unmarshal into [24]uint64"

/-- Decoding of a JSON object into a struct that currently holds `cur`: the members are
taken in their order, `step` stores one member (a key no field is tagged with is
skipped by `step`). -/
def decodeObject {α : Type} (step : α → String → Json → Except String α) (cur : α) :
    Json → Except String α
  | .null => .ok cur
  | .obj members => members.foldlM (fun acc kv => step acc kv.1 kv.2) cur
  | _ => .error "json: cannot unmarshal into struct"

/-- One member of the object `system_info`. -/
def stepSystemInfo (c : SystemInfoT) (key : String) (v : Json) : Except String SystemInfoT :=
  if key = "total_memory" then do
    let n ← decodeUint c.TotalMemory v
    pure { c with TotalMemory := n }
  else if key = "kernel_version" then do
    let s ← decodeString c.KernelVersion v
    pure { c with KernelVersion := s }
  else if key = "start_time" then do
    let t ← decodeTime c.StartTime v
    pure { c with StartTime := t }
  else pure c

/-- One member of the object `config`. -/
def stepConfig (c : ConfigT) (key : String) (v : Json) : Except String ConfigT :=
  if key = "algorithm" then do
    let s ← decodeString c.Algorithm v
    pure { c with Algorithm := s }
  else if key = "initial_size" then do
    let n ← decodeUint c.InitialSize v
    pure { c with InitialSize := n }
  else pure c

/-- One member of the object `compression_stats`. -/
def stepCompression (c : CompressionStatsT) (key : String) (v : Json) :
    Except String CompressionStatsT :=
  if key = "best_ratio" then do
    let f ← decodeFloat c.BestRatio v
    pure { c with BestRatio := f }
  else if key = "worst_ratio" then do
    let f ← decodeFloat c.WorstRatio v
    pure { c with WorstRatio := f }
  else if key = "total_ratio" then do
    let f ← decodeFloat c.TotalRatio v
    pure { c with TotalRatio := f }
  else if key = "sample_count" then do
    let n ← decodeUint c.SampleCount v
    pure { c with SampleCount := n }
  else if key = "excellent_count" then do
    let n ← decodeUint c.ExcellentCount v
    pure { c with ExcellentCount := n }
  else if key = "good_count" then do
    let n ← decodeUint c.GoodCount v
    pure { c with GoodCount := n }
  else if key = "fair_count" then do
    let n ← decodeUint c.FairCount v
    pure { c with FairCount := n }
  else if key = "poor_count" then do
    let n ← decodeUint c.PoorCount v
    pure { c with PoorCount := n }
  else pure c

/-- One member of the object `memory_stats`. -/
def stepMemory (c : MemoryStatsT) (key : String) (v : Json) : Except String MemoryStatsT :=
  if key = "peak_usage" then do
    let n ← decodeUint c.PeakUsage v
    pure { c with PeakUsage := n }
  else if key = "min_usage" then do
    let n ← decodeUint c.MinUsage v
    pure { c with MinUsage := n }
  else if key = "total_usage" then do
    let n ← decodeUint c.TotalUsage v
    pure { c with TotalUsage := n }
  else if key = "low_count" then do
    let n ← decodeUint c.LowCount v
    pure { c with LowCount := n }
  else if key = "medium_count" then do
    let n ← decodeUint c.MediumCount v
    pure { c with MediumCount := n }
  else if key = "high_count" then do
    let n ← decodeUint c.HighCount v
    pure { c with HighCount := n }
  else if key = "critical_count" then do
    let n ← decodeUint c.CriticalCount v
    pure { c with CriticalCount := n }
  else pure c

/-- One member of the object `system_impact`. -/
def stepImpact (c : SystemImpactT) (key : String) (v : Json) : Except String SystemImpactT :=
  if key = "oom_events" then do
    let n ← decodeUint c.OOMEvents v
    pure { c with OOMEvents := n }
  else if key = "max_swap_used" then do
    let n ← decodeUint c.MaxSwapUsed v
    pure { c with MaxSwapUsed := n }
  else if key = "swap_pressure_time" then do
    let n ← decodeUint c.SwapPressureTime v
    pure { c with SwapPressureTime := n }
  else pure c

/-- One member of the object `time_analysis`. -/
def stepTimeAnalysis (c : TimeAnalysisT) (key : String) (v : Json) :
    Except String TimeAnalysisT :=
  if key = "hourly_usage" then do
    let a ← decodeArray c.HourlyUsage v
    pure { c with HourlyUsage := a }
  else if key = "hourly_samples" then do
    let a ← decodeArray c.HourlySamples v
    pure { c with HourlySamples := a }
  else pure c

/-- One member of the top-level object. -/
def stepStats (s : ZramStats) (key : String) (v : Json) : Except String ZramStats :=
  if key = "system_info" then do
    let c ← decodeObject stepSystemInfo s.SystemInfo v
    pure { s with SystemInfo := c }
  else if key = "config" then do
    let c ← decodeObject stepConfig s.Config v
    pure { s with Config := c }
  else if key = "compression_stats" then do
    let c ← decodeObject stepCompression s.CompressionStats v
    pure { s with CompressionStats := c }
  else if key = "memory_stats" then do
    let c ← decodeObject stepMemory s.MemoryStats v
    pure { s with MemoryStats := c }
  else if key = "system_impact" then do
    let c ← decodeObject stepImpact s.SystemImpact v
    pure { s with SystemImpact := c }
  else if key = "time_analysis" then do
    let c ← decodeObject stepTimeAnalysis s.TimeAnalysis v
    pure { s with TimeAnalysis := c }
  else pure s

/-- The call `json.Unmarshal(data, &stats)` on the zero value `var stats ZramStats`, for
a file content: keys are matched exactly as the struct tags spell them. -/
def unmarshal : FileData → Except String ZramStats
  | .torn => .error "invalid character"
  | .doc j => decodeObject stepStats ZramStats.zero j

/-- The function `writeStatsToPath`. -/
def writeStatsToPath (stats : ZramStats) (path : String) (fs : FS) (o : WriteOutcome) :
    FS × Except String Unit :=
  match marshal stats with
  | .error e => (fs, .error ("encoding stats: " ++ e))
  | .ok data =>
    match osWriteFile fs path data o with
    | (fs1, .error e) => (fs1, .error ("writing stats file: " ++ e))
    | (fs1, .ok ()) => (fs1, .ok ())

/-- The function `writeStats`. -/
def writeStats (stats : ZramStats) (fs : FS) (o : WriteOutcome) : FS × Except String Unit :=
  writeStatsToPath stats getStatsPath fs o

/-- The function `SaveStats`; `o1` is the outcome of the write of the backup file, `o2`
that of the write of the canonical file (if it is reached). -/
def SaveStats (stats : ZramStats) (fs : FS) (o1 o2 : WriteOutcome) : FS × Except String Unit :=
  match writeStatsToPath stats backupPath fs o1 with
  | (fs1, .error e) => (fs1, .error ("writing backup: " ++ e))
  | (fs1, .ok ()) =>
    match writeStats stats fs1 o2 with
    | (fs2, .error e) => (fs2, .error ("writing stats: " ++ e))
    | (fs2, .ok ()) => (fs2, .ok ())

/-- The function `LoadStats`. -/
def LoadStats (fs : FS) : Except String ZramStats :=
  match fs.files getStatsPath with
  | none => .error "stats file not found, run initialize first"
  | some data =>
    match unmarshal data with
    | .error e => .error ("parsing stats file: " ++ e)
    | .ok stats => .ok stats

/-- What `InitializeStats` reads from the host: the outcome of `os.MkdirAll`, the content
of `/proc/meminfo` and of `/proc/version` (`none` when unreadable) and `time.Now()`. -/
structure Host where
  mkdirError : Option String
  meminfo : Option GoString
  version : Option GoString
  now : Time

/-- The lines of a text: `strings.Split(text, "\n")`; `cur` holds the line being read,
newest byte first. -/
def splitLines : List UInt8 → List UInt8 → List GoString
  | [], cur => [⟨cur.reverse⟩]
  | b :: bs, cur =>
    if b.toNat = 10 then ⟨cur.reverse⟩ :: splitLines bs [] else splitLines bs (b :: cur)

/-- The loop of `getMemTotal` over the lines of `/proc/meminfo`. -/
def scanMemTotal : List GoString → Except String Nat
  | [] => .error "MemTotal not found in /proc/meminfo"
  | line :: rest =>
    if (goString "MemTotal:").bytes <+: line.bytes then
      match Fields line with
      | _ :: kbField :: _ =>
        match ParseUint kbField with
        | .error e => .error ("parsing MemTotal: " ++ e)
        | .ok kb => .ok ((kb * 1024) % u64)
      | _ => .error "invalid MemTotal line"
    else scanMemTotal rest

/-- The function `getMemTotal`. -/
def getMemTotal (h : Host) : Except String Nat :=
  match h.meminfo with
  | none => .error "open /proc/meminfo"
  | some data => scanMemTotal (splitLines data.bytes [])

/-- The function `getKernelVersion`. -/
def getKernelVersion (h : Host) : GoString :=
  match h.version with
  | none => "unknown"
  | some data => TrimSpace data

/-- The function `InitializeStats`; `o` is the outcome of the write of the initial file
(if it is reached). -/
def InitializeStats (h : Host) (fs : FS) (algorithm : GoString) (initialSize : Nat)
    (o : WriteOutcome) : FS × Except String ZramStats :=
  match h.mkdirError with
  | some e => (fs, .error ("creating metrics directory: " ++ e))
  | none =>
    match getMemTotal h with
    | .error e => (fs, .error ("reading total memory: " ++ e))
    | .ok memTotal =>
      let stats := freshStats memTotal (getKernelVersion h) h.now algorithm initialSize
      match fs.files getStatsPath with
      | none =>
        match writeStats stats fs o with
        | (fs1, .error e) => (fs1, .error ("writing initial stats: " ++ e))
        | (fs1, .ok ()) => (fs1, .ok stats)
      | some _ => (fs, .ok stats)

/-! ## The collection loop (`main.go`) -/

/-- The function `collectAndStore`: the statistics after the call, the file system after
the call and the error returned; `hour` is the hour `UpdateStats` reads from the clock. -/
def collectAndStore (sys : Sysfs) (deviceID : Int) (hour : Fin 24) (stats : ZramStats)
    (fs : FS) (o1 o2 : WriteOutcome) : Run (ZramStats × FS × Except String Unit) :=
  match CollectMetrics sys deviceID with
  | .panic m => .panic m
  | .err e => .ok (stats, fs, .error e)
  | .ok (origSize, compSize, memUsed) =>
    let stats1 := UpdateStats stats origSize compSize memUsed hour
    match SaveStats stats1 fs o1 o2 with
    | (fs1, .error e) => .ok (stats1, fs1, .error ("saving stats: " ++ e))
    | (fs1, .ok ()) => .ok (stats1, fs1, .ok ())

/-- A file system without files. -/
def FS.empty : FS := ⟨fun _ => none, []⟩

/-- A host on which `InitializeStats` finds the directory, 16 GiB of memory and a
kernel version. -/
def exampleHost : Host :=
  ⟨none, some "MemTotal:       16777216 kB\nMemFree:         1000000 kB\n",
    some "Linux version 6.1.0\n", ⟨1700000000, 0, 0⟩⟩

/-- Every uint64 field of the statistics holds a uint64 value. -/
def ZramStats.WellFormed (s : ZramStats) : Prop :=
  (s.SystemInfo.TotalMemory < u64 ∧ s.Config.InitialSize < u64) ∧
  (s.CompressionStats.SampleCount < u64 ∧ s.CompressionStats.ExcellentCount < u64 ∧
    s.CompressionStats.GoodCount < u64 ∧ s.CompressionStats.FairCount < u64 ∧
    s.CompressionStats.PoorCount < u64) ∧
  (s.MemoryStats.PeakUsage < u64 ∧ s.MemoryStats.MinUsage < u64 ∧
    s.MemoryStats.TotalUsage < u64 ∧ s.MemoryStats.LowCount < u64 ∧
    s.MemoryStats.MediumCount < u64 ∧ s.MemoryStats.HighCount < u64 ∧
    s.MemoryStats.CriticalCount < u64) ∧
  (s.SystemImpact.OOMEvents < u64 ∧ s.SystemImpact.MaxSwapUsed < u64 ∧
    s.SystemImpact.SwapPressureTime < u64) ∧
  (∀ i, s.TimeAnalysis.HourlyUsage i < u64) ∧ (∀ i, s.TimeAnalysis.HourlySamples i < u64)

/-- The function `strings.Trim(s, "[]")`. -/
def trimBrackets (s : GoString) : GoString :=
  let isBracket : UInt8 → Bool := fun b => b.toNat == 91 || b.toNat == 93
  ⟨((s.bytes.dropWhile isBracket).reverse.dropWhile isBracket).reverse⟩

/-- The loop of `GetDeviceAlgorithm` over the fields of `comp_algorithm`: the first one
written between brackets. -/
def selectedAlgorithm : List GoString → Option GoString
  | [] => none
  | algo :: rest =>
    if (goString "[").bytes <+: algo.bytes ∧ (goString "]").bytes <:+ algo.bytes then
      some (trimBrackets algo)
    else selectedAlgorithm rest

/-- The function `GetDeviceAlgorithm`. -/
def GetDeviceAlgorithm (sys : Sysfs) (deviceID : Int) : Except String GoString :=
  match sys deviceID "comp_algorithm" with
  | none => .error "open comp_algorithm"
  | some data =>
    let algorithms := Fields data
    match selectedAlgorithm algorithms with
    | some algo => .ok algo
    | none =>
      match algorithms with
      | first :: _ => .ok first
      | [] => .error "no compression algorithm found"

/-- The function `GetDeviceSize`. -/
def GetDeviceSize (sys : Sysfs) (deviceID : Int) : Except String Nat :=
  ReadSysfsValue sys deviceID "disksize"

/-- The start of `main` up to the collection loop, once the checks of the effective
user, of the zram module and of the device have passed: the device configuration is
read and `InitializeStats` is called; an error is an exit with status 1. The result is
the statistics the loop owns and the file system at that point. -/
def startCollector (sys : Sysfs) (h : Host) (fs : FS) (deviceID : Int) (o : WriteOutcome) :
    Except String (ZramStats × FS) :=
  match GetDeviceAlgorithm sys deviceID with
  | .error e => .error ("getting device algorithm: " ++ e)
  | .ok algorithm =>
    match GetDeviceSize sys deviceID with
    | .error e => .error ("getting device size: " ++ e)
    | .ok initialSize =>
      match InitializeStats h fs algorithm initialSize o with
      | (_, .error e) => .error ("initializing stats: " ++ e)
      | (fs1, .ok stats) => .ok (stats, fs1)

/-- The `sample_count` stored in the canonical file, when `LoadStats` can read it. -/
def storedSampleCount (fs : FS) : Option Nat :=
  match LoadStats fs with
  | .ok s => some s.CompressionStats.SampleCount
  | .error _ => none

/-- A zram device 0 with an 8 GiB disk size, the zstd algorithm and one reading of
`mm_stat`. -/
def exampleSysfs : Sysfs := fun deviceID name =>
  if deviceID = 0 then
    (if name = "mm_stat" then some "4096000 1024000 2048000 0 2048000 0 0 0 0\n"
     else if name = "comp_algorithm" then some "lzo lzo-rle lz4 [zstd]\n"
     else if name = "disksize" then some "8589934592\n"
     else none)
  else none

/-- The statistics of an earlier run of the collector: five samples. -/
def earlierStats : ZramStats :=
  applyAll (freshStats 17179869184 "Linux version 6.1.0" ⟨1690000000, 0, 0⟩ "zstd" 8589934592)
    [⟨4096000, 1024000, 2048000, 9⟩, ⟨4096000, 1024000, 2048000, 9⟩,
     ⟨8192000, 1024000, 2048000, 9⟩, ⟨8192000, 4096000, 5000000, 10⟩,
     ⟨8192000, 4096000, 5000000, 10⟩]

/-- The file system the earlier run left behind: its last `SaveStats` succeeded. -/
def earlierFS : FS := (SaveStats earlierStats FS.empty WriteOutcome.ok WriteOutcome.ok).1

/-- The file system after a restart on `earlierFS` followed by one collection cycle
whose writes succeed, at hour 11. -/
def restartThenTick : Option FS :=
  match startCollector exampleSysfs exampleHost earlierFS 0 WriteOutcome.ok with
  | .error _ => none
  | .ok (stats, fs1) =>
    match collectAndStore exampleSysfs 0 11 stats fs1 WriteOutcome.ok WriteOutcome.ok with
    | .ok (_, fs2, .ok ()) => some fs2
    | _ => none

/-- The file system after a restart on `earlierFS` followed at once by the shutdown
signal, whose final `SaveStats` succeeds. -/
def restartThenShutdown : Option FS :=
  match startCollector exampleSysfs exampleHost earlierFS 0 WriteOutcome.ok with
  | .error _ => none
  | .ok (stats, fs1) =>
    match SaveStats stats fs1 WriteOutcome.ok WriteOutcome.ok with
    | (fs2, .ok ()) => some fs2
    | _ => none

/-- The statistics with `kernel_version` and `algorithm` coerced to valid UTF-8: what
the JSON form of the statistics carries. -/
def ZramStats.coerced (s : ZramStats) : ZramStats :=
  { s with
    SystemInfo := { s.SystemInfo with KernelVersion := toValidUTF8 s.SystemInfo.KernelVersion }
    Config := { s.Config with Algorithm := toValidUTF8 s.Config.Algorithm } }

/-- The `kernel_version` stored in the canonical file, when `LoadStats` can read it. -/
def storedKernelVersion (fs : FS) : Option GoString :=
  match LoadStats fs with
  | .ok s => some s.SystemInfo.KernelVersion
  | .error _ => none

/-- A host whose `/proc/version` holds the bytes of "Linux" followed by a blank, the byte
FF, which is not valid UTF-8, and a line feed. -/
def rawVersionHost : Host :=
  ⟨none, some "MemTotal:       16777216 kB\nMemFree:         1000000 kB\n",
    some ⟨[76, 105, 110, 117, 120, 32, 255, 10]⟩, ⟨1700000000, 0, 0⟩⟩

/-- The statistics `InitializeStats` builds on `rawVersionHost`, after one update. -/
def rawVersionStats : ZramStats :=
  applyAll (freshStats 17179869184 (getKernelVersion rawVersionHost) rawVersionHost.now "zstd"
    8589934592) [⟨4096000, 1024000, 2048000, 9⟩]

/-! ## Facts about the float64 model -/

namespace F64

theorem le_roundHalfEven (a b : Nat) : a / b ≤ roundHalfEven a b := by
  unfold roundHalfEven
  simp only []
  split_ifs <;> omega

theorem pow_log2Fuel_le (fuel n : Nat) (h : 1 ≤ n) : 2 ^ log2Fuel fuel n ≤ n := by
  induction fuel generalizing n with
  | zero => simpa [log2Fuel] using h
  | succ f ih =>
    unfold log2Fuel
    split_ifs with h2
    · simpa using h
    · have h3 : 1 ≤ n / 2 := by omega
      have := ih (n / 2) h3
      rw [pow_succ]
      omega

theorem log2Fuel_le (fuel n k : Nat) (h : n < 2 ^ (k + 1)) : log2Fuel fuel n ≤ k := by
  induction fuel generalizing n k with
  | zero => simp [log2Fuel]
  | succ f ih =>
    unfold log2Fuel
    split_ifs with h2
    · omega
    · cases k with
      | zero => simp at h; omega
      | succ k =>
        have h3 : n / 2 < 2 ^ (k + 1) := by
          rw [pow_succ] at h
          omega
        have := ih (n / 2) k h3
        omega

theorem roundPos_false_ordNonneg (n d : Nat) : OrdNonneg (roundPos false n d) := by
  unfold roundPos
  simp only [Bool.false_eq_true, if_false]
  split_ifs
  · exact Or.inr rfl
  · exact Or.inl ⟨_, by positivity, rfl⟩
  · exact Or.inr rfl
  · exact Or.inl ⟨_, by positivity, rfl⟩

theorem round_ordNonneg (q : ℚ) (hq : 0 ≤ q) : OrdNonneg (round q) := by
  unfold round
  split_ifs with h0
  · exact Or.inl ⟨0, le_refl _, rfl⟩
  · have : decide (q < 0) = false := by simpa using hq
    rw [this]
    exact roundPos_false_ordNonneg _ _

theorem ofUInt64_ordNonneg (n : Nat) : OrdNonneg (ofUInt64 n) :=
  round_ordNonneg _ (by positivity)

theorem ilog2_one : ilog2 1 = 0 := by decide

theorem floorLog2_nat (n : Nat) (h : 1 ≤ n) : floorLog2 n 1 = (ilog2 n : Int) := by
  unfold floorLog2
  simp only [ilog2_one]
  have hp : 2 ^ ilog2 n ≤ n := pow_log2Fuel_le n n h
  simp [hp]

theorem roundPos_nat_pos (n : Nat) (h0 : 1 ≤ n) (hn : n < 2 ^ 64) :
    ∃ r : ℚ, 0 < r ∧ roundPos false n 1 = fin r := by
  have hL : ilog2 n ≤ 63 := log2Fuel_le n n 63 hn
  have hp : 2 ^ ilog2 n ≤ n := pow_log2Fuel_le n n h0
  unfold roundPos
  simp only [Bool.false_eq_true, if_false, floorLog2_nat n h0]
  have he : max (ilog2 n : Int) (-1022) = (ilog2 n : Int) := by omega
  rw [he]
  have hno : ¬ (1024 ≤ (ilog2 n : Int) ∨ ((ilog2 n : Int) = 1023 ∧
      (if 0 ≤ (ilog2 n : Int) - 52
        then roundHalfEven n (1 * 2 ^ ((ilog2 n : Int) - 52).toNat)
        else roundHalfEven (n * 2 ^ (-((ilog2 n : Int) - 52)).toNat) 1) = 2 ^ 53)) := by
    omega
  rw [if_neg hno]
  refine ⟨_, ?_, rfl⟩
  split_ifs with hk
  · have hk2 : ((ilog2 n : Int) - 52).toNat ≤ ilog2 n := by omega
    have hb : 1 * 2 ^ ((ilog2 n : Int) - 52).toNat ≤ n := by
      rw [Nat.one_mul]
      exact le_trans (Nat.pow_le_pow_right (by decide) hk2) hp
    have hm : 1 ≤ roundHalfEven n (1 * 2 ^ ((ilog2 n : Int) - 52).toNat) :=
      le_trans (Nat.div_pos hb (by positivity)) (le_roundHalfEven _ _)
    have : 0 < roundHalfEven n (1 * 2 ^ ((ilog2 n : Int) - 52).toNat)
        * 2 ^ ((ilog2 n : Int) - 52).toNat := by positivity
    exact_mod_cast this
  · have ha : 1 ≤ n * 2 ^ (-((ilog2 n : Int) - 52)).toNat :=
      Nat.mul_pos h0 (by positivity)
    have hm : 1 ≤ roundHalfEven (n * 2 ^ (-((ilog2 n : Int) - 52)).toNat) 1 :=
      le_trans (by rw [Nat.div_one]; exact ha) (le_roundHalfEven _ _)
    have h1 : (0 : ℚ) < (roundHalfEven (n * 2 ^ (-((ilog2 n : Int) - 52)).toNat) 1 : ℚ) := by
      exact_mod_cast hm
    positivity

theorem ofUInt64_pos (n : Nat) (h0 : 1 ≤ n) (hn : n < u64) :
    ∃ r : ℚ, 0 < r ∧ ofUInt64 n = fin r := by
  unfold ofUInt64 round
  have hne : (n : ℚ) ≠ 0 := by exact_mod_cast (by omega : n ≠ 0)
  have hlt : decide ((n : ℚ) < 0) = false := by simp
  rw [if_neg hne, hlt]
  simpa using roundPos_nat_pos n h0 hn


theorem OrdNonneg.ne_nan {r : F64} (h : OrdNonneg r) : r ≠ nan := by
  rcases h with ⟨q, _, rfl⟩ | rfl <;> simp

theorem le_refl_of_ne_nan {a : F64} (h : a ≠ nan) : le a a = true := by
  cases a with
  | fin q => simp [le]
  | inf n => cases n <;> simp [le]
  | nan => exact absurd rfl h

theorem le_of_lt_eq_false {a b : F64} (ha : a ≠ nan) (hb : b ≠ nan) (h : lt a b = false) :
    le b a = true := by
  cases a with
  | nan => exact absurd rfl ha
  | fin p =>
    cases b with
    | nan => exact absurd rfl hb
    | fin q => simpa [le, lt] using h
    | inf n => cases n <;> simp_all [le, lt]
  | inf m =>
    cases b with
    | nan => exact absurd rfl hb
    | fin q => cases m <;> simp_all [le, lt]
    | inf n => cases m <;> cases n <;> simp_all [le, lt]

theorem le_of_lt_true {a b : F64} (h : lt a b = true) : le a b = true := by
  cases a with
  | nan => simp [lt] at h
  | fin p =>
    cases b with
    | nan => simp [lt] at h
    | fin q => simp only [lt, decide_eq_true_eq] at h; simp [le, h.le]
    | inf n => simpa [le, lt] using h
  | inf m =>
    cases b with
    | nan => simp [lt] at h
    | fin q => simpa [le, lt] using h
    | inf n => cases m <;> cases n <;> simp_all [le, lt]

theorem le_chain {a b c : F64} (h1 : le a b = true) (h2 : le b c = true) : le a c = true := by
  cases a with
  | nan => simp [le] at h1
  | fin p =>
    cases b with
    | nan => simp [le] at h1
    | fin q =>
      cases c with
      | nan => simp [le] at h2
      | fin r =>
        simp only [le, decide_eq_true_eq] at h1 h2 ⊢
        exact h1.trans h2
      | inf n => simpa [le] using h2
    | inf m =>
      cases c with
      | nan => simp [le] at h2
      | fin r => cases m <;> simp_all [le]
      | inf n => cases m <;> cases n <;> simp_all [le]
  | inf l =>
    cases b with
    | nan => simp [le] at h1
    | fin q =>
      cases c with
      | nan => simp [le] at h2
      | fin r => simpa [le] using h1
      | inf n => cases l <;> cases n <;> simp_all [le]
    | inf m =>
      cases c with
      | nan => simp [le] at h2
      | fin r => cases l <;> cases m <;> simp_all [le]
      | inf n => cases l <;> cases m <;> cases n <;> simp_all [le]

end F64

/-! ## Facts about Go strings -/

theorem decodeRune_width_pos (b : UInt8) (rest : List UInt8) :
    1 ≤ (decodeRune (b :: rest)).2 := by
  rcases rest with _ | ⟨b1, _ | ⟨b2, _ | ⟨b3, rest⟩⟩⟩ <;>
    simp only [decodeRune] <;> split_ifs <;> simp

theorem runesFuel_bytes (fuel : Nat) (bs : List UInt8) (h : bs.length ≤ fuel) :
    ((runesFuel fuel bs).map Rune.bytes).flatten = bs := by
  induction fuel generalizing bs with
  | zero =>
    have : bs = [] := List.length_eq_zero.mp (Nat.le_zero.mp h)
    subst this
    rfl
  | succ fuel ih =>
    cases bs with
    | nil => rfl
    | cons b rest =>
      have hw := decodeRune_width_pos b rest
      have hl : ((b :: rest).drop (decodeRune (b :: rest)).2).length ≤ fuel := by
        rw [List.length_drop]
        simp only [List.length_cons] at h ⊢
        omega
      simp only [runesFuel, List.map_cons, List.flatten_cons, ih _ hl]
      exact List.take_append_drop _ _

theorem toValidUTF8_of_valid (s : GoString) (h : ValidString s = true) :
    toValidUTF8 s = s := by
  unfold ValidString at h
  rw [List.all_eq_true] at h
  have hmap : s.runes.map (fun r => if r.invalid then [239, 191, 189] else r.bytes)
      = s.runes.map Rune.bytes := by
    apply List.map_congr_left
    intro r hr
    have := h r hr
    simp only [Bool.not_eq_true'] at this
    simp [this]
  unfold toValidUTF8
  rw [hmap]
  have := runesFuel_bytes s.bytes.length s.bytes (le_refl _)
  unfold GoString.runes
  rw [this]

theorem decodeRune_width_le (bs : List UInt8) : (decodeRune bs).2 ≤ bs.length := by
  rcases bs with _ | ⟨b0, _ | ⟨b1, _ | ⟨b2, _ | ⟨b3, rest⟩⟩⟩⟩ <;>
    simp only [decodeRune] <;> first | (split_ifs <;> simp) | simp

theorem decodeRune_one (b0 : UInt8) (rest : List UInt8) (h : b0.toNat < 128) :
    decodeRune (b0 :: rest) = (b0.toNat, 1) := by
  simp only [decodeRune, h, if_true]

theorem decodeRune_bad (b0 : UInt8) (rest : List UInt8) (h0 : ¬ b0.toNat < 128)
    (h2 : ¬ (194 ≤ b0.toNat ∧ b0.toNat ≤ 223)) (h3 : ¬ (224 ≤ b0.toNat ∧ b0.toNat ≤ 239))
    (h4 : ¬ (240 ≤ b0.toNat ∧ b0.toNat ≤ 244)) :
    decodeRune (b0 :: rest) = (65533, 1) := by
  simp only [decodeRune, h0, h2, h3, h4, if_false]

theorem decodeRune_two (b0 b1 : UInt8) (rest : List UInt8) (h0 : ¬ b0.toNat < 128)
    (h2 : 194 ≤ b0.toNat ∧ b0.toNat ≤ 223) :
    decodeRune (b0 :: b1 :: rest)
      = if byteIn b1 128 191 then ((b0.toNat - 192) * 64 + (b1.toNat - 128), 2)
        else (65533, 1) := by
  simp only [decodeRune, h0, h2, if_false, if_true]
  rfl

theorem decodeRune_two_short (b0 : UInt8) (h0 : ¬ b0.toNat < 128)
    (h2 : 194 ≤ b0.toNat ∧ b0.toNat ≤ 223) : decodeRune [b0] = (65533, 1) := by
  simp only [decodeRune, h0, h2, if_false, if_true]
  rfl

theorem decodeRune_three (b0 b1 b2 : UInt8) (rest : List UInt8) (h0 : ¬ b0.toNat < 128)
    (h2 : ¬ (194 ≤ b0.toNat ∧ b0.toNat ≤ 223)) (h3 : 224 ≤ b0.toNat ∧ b0.toNat ≤ 239) :
    decodeRune (b0 :: b1 :: b2 :: rest)
      = if byteIn b1 (secondByteLo b0.toNat) (secondByteHi b0.toNat)
              && byteIn b2 128 191 then
          ((b0.toNat - 224) * 4096 + (b1.toNat - 128) * 64 + (b2.toNat - 128), 3)
        else (65533, 1) := by
  simp only [decodeRune, h0, h2, h3, if_false, if_true]
  rfl

theorem decodeRune_three_short (b0 : UInt8) (rest : List UInt8) (hl : rest.length < 2)
    (h0 : ¬ b0.toNat < 128)
    (h2 : ¬ (194 ≤ b0.toNat ∧ b0.toNat ≤ 223)) (h3 : 224 ≤ b0.toNat ∧ b0.toNat ≤ 239) :
    decodeRune (b0 :: rest) = (65533, 1) := by
  rcases rest with _ | ⟨b1, _ | ⟨b2, rest⟩⟩
  · simp only [decodeRune, h0, h2, h3, if_false, if_true]; rfl
  · simp only [decodeRune, h0, h2, h3, if_false, if_true]; rfl
  · simp only [List.length_cons] at hl; omega

theorem decodeRune_four (b0 b1 b2 b3 : UInt8) (rest : List UInt8) (h0 : ¬ b0.toNat < 128)
    (h2 : ¬ (194 ≤ b0.toNat ∧ b0.toNat ≤ 223)) (h3 : ¬ (224 ≤ b0.toNat ∧ b0.toNat ≤ 239))
    (h4 : 240 ≤ b0.toNat ∧ b0.toNat ≤ 244) :
    decodeRune (b0 :: b1 :: b2 :: b3 :: rest)
      = if byteIn b1 (secondByteLo b0.toNat) (secondByteHi b0.toNat)
              && byteIn b2 128 191 && byteIn b3 128 191 then
          ((b0.toNat - 240) * 262144 + (b1.toNat - 128) * 4096 + (b2.toNat - 128) * 64
            + (b3.toNat - 128), 4)
        else (65533, 1) := by
  simp only [decodeRune, h0, h2, h3, h4, if_false, if_true]
  rfl

theorem decodeRune_four_short (b0 : UInt8) (rest : List UInt8) (hl : rest.length < 3)
    (h0 : ¬ b0.toNat < 128)
    (h2 : ¬ (194 ≤ b0.toNat ∧ b0.toNat ≤ 223)) (h3 : ¬ (224 ≤ b0.toNat ∧ b0.toNat ≤ 239))
    (h4 : 240 ≤ b0.toNat ∧ b0.toNat ≤ 244) :
    decodeRune (b0 :: rest) = (65533, 1) := by
  rcases rest with _ | ⟨b1, _ | ⟨b2, _ | ⟨b3, rest⟩⟩⟩
  · simp only [decodeRune, h0, h2, h3, h4, if_false, if_true]; rfl
  · simp only [decodeRune, h0, h2, h3, h4, if_false, if_true]; rfl
  · simp only [decodeRune, h0, h2, h3, h4, if_false, if_true]; rfl
  · simp only [List.length_cons] at hl; omega

theorem decodeRune_replacement (tail : List UInt8) :
    decodeRune (239 :: 191 :: 189 :: tail) = (65533, 3) := by
  rw [decodeRune_three 239 191 189 tail (by decide) (by decide) (by decide)]
  decide

/-- A rune that was decoded from a valid encoding decodes the same way in front of any
other bytes. -/
theorem decodeRune_take_append (b0 : UInt8) (rest tail : List UInt8)
    (h : ¬ ((decodeRune (b0 :: rest)).1 = 65533 ∧ (decodeRune (b0 :: rest)).2 = 1)) :
    decodeRune ((b0 :: rest).take (decodeRune (b0 :: rest)).2 ++ tail)
      = decodeRune (b0 :: rest) := by
  by_cases h0 : b0.toNat < 128
  · rw [decodeRune_one b0 rest h0]
    simp only [List.take_succ_cons, List.take_zero, List.cons_append, List.nil_append]
    exact decodeRune_one b0 tail h0
  by_cases h2 : 194 ≤ b0.toNat ∧ b0.toNat ≤ 223
  · rcases rest with _ | ⟨b1, rest⟩
    · exact absurd (by rw [decodeRune_two_short b0 h0 h2]; exact ⟨rfl, rfl⟩) h
    · rw [decodeRune_two b0 b1 rest h0 h2] at h ⊢
      by_cases hc : byteIn b1 128 191 = true
      · simp only [hc, if_true, List.take_succ_cons, List.take_zero, List.cons_append,
          List.nil_append]
        rw [decodeRune_two b0 b1 tail h0 h2, if_pos hc]
      · exact absurd (by simp [hc]) h
  by_cases h3 : 224 ≤ b0.toNat ∧ b0.toNat ≤ 239
  · rcases rest with _ | ⟨b1, _ | ⟨b2, rest⟩⟩
    · exact absurd (by rw [decodeRune_three_short b0 [] (by simp) h0 h2 h3]; exact ⟨rfl, rfl⟩) h
    · exact absurd (by
        rw [decodeRune_three_short b0 [b1] (by simp) h0 h2 h3]; exact ⟨rfl, rfl⟩) h
    · rw [decodeRune_three b0 b1 b2 rest h0 h2 h3] at h ⊢
      split_ifs at h ⊢ with hc
      · simp only [List.take_succ_cons, List.take_zero, List.cons_append, List.nil_append]
        rw [decodeRune_three b0 b1 b2 tail h0 h2 h3, if_pos hc]
      · exact absurd ⟨rfl, rfl⟩ h
  by_cases h4 : 240 ≤ b0.toNat ∧ b0.toNat ≤ 244
  · rcases rest with _ | ⟨b1, _ | ⟨b2, _ | ⟨b3, rest⟩⟩⟩
    · exact absurd (by rw [decodeRune_four_short b0 [] (by simp) h0 h2 h3 h4]; exact ⟨rfl, rfl⟩) h
    · exact absurd (by
        rw [decodeRune_four_short b0 [b1] (by simp) h0 h2 h3 h4]; exact ⟨rfl, rfl⟩) h
    · exact absurd (by
        rw [decodeRune_four_short b0 [b1, b2] (by simp) h0 h2 h3 h4]; exact ⟨rfl, rfl⟩) h
    · rw [decodeRune_four b0 b1 b2 b3 rest h0 h2 h3 h4] at h ⊢
      split_ifs at h ⊢ with hc
      · simp only [List.take_succ_cons, List.take_zero, List.cons_append, List.nil_append]
        rw [decodeRune_four b0 b1 b2 b3 tail h0 h2 h3 h4, if_pos hc]
      · exact absurd ⟨rfl, rfl⟩ h
  · exact absurd (by rw [decodeRune_bad b0 rest h0 h2 h3 h4]; exact ⟨rfl, rfl⟩) h

theorem runesFuel_cons (fuel : Nat) (b : UInt8) (rest : List UInt8) :
    runesFuel (fuel + 1) (b :: rest)
      = ⟨(decodeRune (b :: rest)).1, (b :: rest).take (decodeRune (b :: rest)).2⟩
        :: runesFuel fuel ((b :: rest).drop (decodeRune (b :: rest)).2) := rfl

theorem runesFuel_of_good (rs : List Rune) (h : ∀ r ∈ rs, GoodRune r) (fuel : Nat)
    (hf : ((rs.map Rune.bytes).flatten).length ≤ fuel) :
    runesFuel fuel ((rs.map Rune.bytes).flatten) = rs := by
  induction rs generalizing fuel with
  | nil => cases fuel <;> rfl
  | cons r rs ih =>
    obtain ⟨hne, _, hdec⟩ := h r (by simp)
    obtain ⟨b, bs, hb⟩ := List.exists_cons_of_ne_nil hne
    have hdec2 := hdec ((rs.map Rune.bytes).flatten)
    simp only [List.map_cons, List.flatten_cons] at hf ⊢
    rw [hb] at hf hdec2 ⊢
    simp only [List.cons_append, List.length_cons, List.length_append] at hf
    cases fuel with
    | zero => omega
    | succ fuel =>
      simp only [List.cons_append] at hdec2 ⊢
      rw [runesFuel_cons, hdec2]
      have e1 : (b :: (bs ++ (rs.map Rune.bytes).flatten)).take (b :: bs).length = b :: bs := by
        rw [← List.cons_append, List.take_left]
      have e2 : (b :: (bs ++ (rs.map Rune.bytes).flatten)).drop (b :: bs).length
          = (rs.map Rune.bytes).flatten := by
        rw [← List.cons_append, List.drop_left]
      simp only [e1, e2]
      rw [ih (fun q hq => h q (by simp [hq])) fuel (by omega)]
      congr 1
      cases r
      simp_all

theorem goodRune_of_runesFuel (fuel : Nat) (bs : List UInt8) (r : Rune)
    (hr : r ∈ runesFuel fuel bs) (hv : r.invalid = false) : GoodRune r := by
  induction fuel generalizing bs with
  | zero => simp [runesFuel] at hr
  | succ fuel ih =>
    cases bs with
    | nil => simp [runesFuel] at hr
    | cons b rest =>
      rw [runesFuel_cons, List.mem_cons] at hr
      rcases hr with rfl | hr
      · have hw := decodeRune_width_pos b rest
        have hle := decodeRune_width_le (b :: rest)
        have hlen : ((b :: rest).take (decodeRune (b :: rest)).2).length
            = (decodeRune (b :: rest)).2 := by
          rw [List.length_take]; omega
        have hnot : ¬ ((decodeRune (b :: rest)).1 = 65533 ∧ (decodeRune (b :: rest)).2 = 1) := by
          intro hc
          simp only [Rune.invalid, hlen, hc.1, hc.2] at hv
          simp at hv
        refine ⟨?_, hv, ?_⟩
        · intro he
          have := congrArg List.length he
          rw [hlen] at this
          simp at this
          omega
        · intro tail
          simp only [hlen]
          exact decodeRune_take_append b rest tail hnot
      · exact ih _ hr

/-- Coercion to valid UTF-8 yields valid UTF-8. -/
theorem validString_toValidUTF8 (s : GoString) : ValidString (toValidUTF8 s) = true := by
  have hgood : ∀ r ∈ s.runes.map
      (fun r => if r.invalid then (⟨65533, [239, 191, 189]⟩ : Rune) else r), GoodRune r := by
    intro r hr
    rw [List.mem_map] at hr
    obtain ⟨q, hq, rfl⟩ := hr
    by_cases hi : q.invalid = true
    · simp only [hi, if_true]
      exact ⟨by simp, by decide, fun tail => decodeRune_replacement tail⟩
    · simp only [hi]
      exact goodRune_of_runesFuel _ _ q hq (by simpa using hi)
  have hbytes : (toValidUTF8 s).bytes
      = ((s.runes.map (fun r => if r.invalid then (⟨65533, [239, 191, 189]⟩ : Rune) else r)).map
          Rune.bytes).flatten := by
    unfold toValidUTF8
    simp only [List.map_map]
    congr 2
    funext r
    simp only [Function.comp]
    split_ifs <;> rfl
  unfold ValidString GoString.runes
  rw [hbytes, runesFuel_of_good _ hgood _ (le_refl _), List.all_eq_true]
  intro r hr
  have := (hgood r hr).2.1
  simp [this]

theorem toValidUTF8_idem (s : GoString) : toValidUTF8 (toValidUTF8 s) = toValidUTF8 s :=
  toValidUTF8_of_valid _ (validString_toValidUTF8 s)

/-! ## Sequences of updates -/

theorem applyAll_nil (s : ZramStats) : applyAll s [] = s := rfl

theorem applyAll_cons (s : ZramStats) (t : Tick) (ts : List Tick) :
    applyAll s (t :: ts) = applyAll (t.apply s) ts := rfl

theorem applyAll_append (s : ZramStats) (ts us : List Tick) :
    applyAll s (ts ++ us) = applyAll (applyAll s ts) us := by
  simp [applyAll, List.foldl_append]

theorem applyAll_snoc (s : ZramStats) (ts : List Tick) (t : Tick) :
    applyAll s (ts ++ [t]) = t.apply (applyAll s ts) := by
  simp [applyAll, List.foldl_append]

theorem updateCompression_SampleCount (c : CompressionStatsT) (r : F64) :
    (updateCompression c r).SampleCount = (c.SampleCount + 1) % u64 := by
  unfold updateCompression
  simp only []
  split_ifs <;> rfl

theorem apply_SampleCount (s : ZramStats) (t : Tick) :
    (t.apply s).CompressionStats.SampleCount = (s.CompressionStats.SampleCount + 1) % u64 := by
  simp [Tick.apply, UpdateStats, updateCompression_SampleCount]

theorem applyAll_SampleCount (ts : List Tick) (s : ZramStats)
    (hs : s.CompressionStats.SampleCount < u64) :
    (applyAll s ts).CompressionStats.SampleCount
      = (s.CompressionStats.SampleCount + ts.length) % u64 := by
  induction ts using List.reverseRecOn with
  | nil => simp [applyAll_nil, Nat.mod_eq_of_lt hs]
  | append_singleton ts t ih =>
    rw [applyAll_snoc, apply_SampleCount, ih, List.length_append, List.length_singleton]
    simp only [u64]
    omega

theorem updateCompression_buckets (c : CompressionStatsT) (r : F64) (n : Nat)
    (h : CountInv c n) (hn : n + 1 < u64) :
    CountInv (updateCompression c r) (n + 1) ∧ bumpsOneBucket c (updateCompression c r) := by
  obtain ⟨h1, h2⟩ := h
  have hb : c.ExcellentCount + c.GoodCount + c.FairCount + c.PoorCount = n := h2
  have e1 : (c.ExcellentCount + 1) % u64 = c.ExcellentCount + 1 :=
    Nat.mod_eq_of_lt (by omega)
  have e2 : (c.GoodCount + 1) % u64 = c.GoodCount + 1 := Nat.mod_eq_of_lt (by omega)
  have e3 : (c.FairCount + 1) % u64 = c.FairCount + 1 := Nat.mod_eq_of_lt (by omega)
  have e4 : (c.PoorCount + 1) % u64 = c.PoorCount + 1 := Nat.mod_eq_of_lt (by omega)
  have e5 : (c.SampleCount + 1) % u64 = n + 1 := by rw [h1]; exact Nat.mod_eq_of_lt hn
  unfold updateCompression CountInv bumpsOneBucket bucketSum
  simp only []
  split_ifs <;> simp [e1, e2, e3, e4, e5] <;> omega

theorem apply_CountInv (s : ZramStats) (t : Tick) (n : Nat)
    (h : CountInv s.CompressionStats n) (hn : n + 1 < u64) :
    CountInv (t.apply s).CompressionStats (n + 1) ∧
      bumpsOneBucket s.CompressionStats (t.apply s).CompressionStats :=
  updateCompression_buckets s.CompressionStats t.ratio n h hn

theorem applyAll_CountInv (ts : List Tick) (s : ZramStats) (n : Nat)
    (h : CountInv s.CompressionStats n) (hn : n + ts.length < u64) :
    CountInv (applyAll s ts).CompressionStats (n + ts.length) := by
  induction ts generalizing s n with
  | nil => simpa [applyAll_nil] using h
  | cons t ts ih =>
    rw [applyAll_cons, List.length_cons]
    have hlen : (t :: ts).length = ts.length + 1 := List.length_cons t ts
    have h1 := (apply_CountInv s t n h (by omega)).1
    have h2 := ih (t.apply s) (n + 1) h1 (by omega)
    have e : n + (ts.length + 1) = n + 1 + ts.length := by omega
    rw [e]
    exact h2

theorem fresh_CountInv (memTotal : Nat) (kernelVersion : GoString) (now : Time)
    (algorithm : GoString) (initialSize : Nat) :
    CountInv (freshStats memTotal kernelVersion now algorithm initialSize).CompressionStats 0 :=
  ⟨rfl, rfl⟩

theorem fresh_SampleCount_eq_length (memTotal : Nat) (kernelVersion : GoString) (now : Time)
    (algorithm : GoString) (initialSize : Nat) (ts : List Tick) (hlen : ts.length < u64) :
    (applyAll (freshStats memTotal kernelVersion now algorithm initialSize)
        ts).CompressionStats.SampleCount = ts.length := by
  have h0 := fresh_CountInv memTotal kernelVersion now algorithm initialSize
  have hall := applyAll_CountInv ts _ 0 h0 (by omega)
  rw [Nat.zero_add] at hall
  exact hall.1

/-- C5 (amended): for fewer than 2^64 updates applied to freshly created statistics,
`sample_count` is the number of updates and equals the sum of the four compression
buckets, and every single update raises exactly one of the four buckets by one. -/
theorem compression_count_invariant (memTotal : Nat) (kernelVersion : GoString) (now : Time)
    (algorithm : GoString) (initialSize : Nat) (ts : List Tick) (hlen : ts.length < u64) :
    (applyAll (freshStats memTotal kernelVersion now algorithm initialSize)
        ts).CompressionStats.SampleCount = ts.length ∧
    (applyAll (freshStats memTotal kernelVersion now algorithm initialSize)
        ts).CompressionStats.SampleCount
      = bucketSum (applyAll (freshStats memTotal kernelVersion now algorithm initialSize)
          ts).CompressionStats ∧
    ∀ (pre : List Tick) (t : Tick) (post : List Tick), ts = pre ++ t :: post →
      bumpsOneBucket
        (applyAll (freshStats memTotal kernelVersion now algorithm initialSize)
          pre).CompressionStats
        (t.apply (applyAll (freshStats memTotal kernelVersion now algorithm initialSize)
          pre)).CompressionStats := by
  have h0 := fresh_CountInv memTotal kernelVersion now algorithm initialSize
  have hall := applyAll_CountInv ts _ 0 h0 (by omega)
  rw [Nat.zero_add] at hall
  refine ⟨hall.1, hall.1.trans hall.2.symm, ?_⟩
  intro pre t post hts
  have hl : pre.length + 1 ≤ ts.length := by
    rw [hts, List.length_append, List.length_cons]; omega
  have hpre := applyAll_CountInv pre _ 0 h0 (by omega)
  rw [Nat.zero_add] at hpre
  exact (apply_CountInv _ t pre.length hpre (by omega)).2

/-- Witness of `compression_count_invariant`: three updates with ratios 0.15, 0.35 and
0.45. -/
theorem compression_count_invariant_witness :
    ([⟨100, 15, 6, 0⟩, ⟨100, 35, 6, 0⟩, ⟨100, 45, 0, 0⟩] : List Tick).length < u64 ∧
    (applyAll (freshStats 0 "" Time.zero "zstd" 8589934592)
        [⟨100, 15, 6, 0⟩, ⟨100, 35, 6, 0⟩, ⟨100, 45, 0, 0⟩]).CompressionStats.SampleCount
      = 3 :=
  ⟨by decide, (compression_count_invariant 0 "" Time.zero "zstd" 8589934592
      [⟨100, 15, 6, 0⟩, ⟨100, 35, 6, 0⟩, ⟨100, 45, 0, 0⟩] (by decide)).1⟩

/-- C5 as stated fails once the counter wraps: after 2^64 updates of fresh statistics
`sample_count` is 0, not the number of samples applied. -/
theorem compression_count_wraps :
    (applyAll (freshStats 0 "" Time.zero "" 0)
        (List.replicate (2 ^ 64) (⟨0, 0, 0, 0⟩ : Tick))).CompressionStats.SampleCount = 0 ∧
    (applyAll (freshStats 0 "" Time.zero "" 0)
        (List.replicate (2 ^ 64) (⟨0, 0, 0, 0⟩ : Tick))).CompressionStats.SampleCount
      ≠ (List.replicate (2 ^ 64) (⟨0, 0, 0, 0⟩ : Tick)).length := by
  have h := applyAll_SampleCount (List.replicate (2 ^ 64) (⟨0, 0, 0, 0⟩ : Tick))
    (freshStats 0 "" Time.zero "" 0) (by decide)
  rw [List.length_replicate] at h
  have h0 : (freshStats 0 "" Time.zero "" 0).CompressionStats.SampleCount = 0 := rfl
  rw [h0] at h
  have hz : (0 + 2 ^ 64) % u64 = 0 := by decide
  rw [hz] at h
  refine ⟨h, ?_⟩
  rw [h, List.length_replicate]
  decide

/-! ### Hourly counters -/

theorem apply_HourlySamples (s : ZramStats) (t : Tick) :
    (t.apply s).TimeAnalysis.HourlySamples
      = Function.update s.TimeAnalysis.HourlySamples t.hour
          ((s.TimeAnalysis.HourlySamples t.hour + 1) % u64) := rfl

theorem apply_HourlyUsage (s : ZramStats) (t : Tick) :
    (t.apply s).TimeAnalysis.HourlyUsage
      = Function.update s.TimeAnalysis.HourlyUsage t.hour
          ((s.TimeAnalysis.HourlyUsage t.hour + t.memUsed) % u64) := rfl

theorem sum_update_succ (f : Fin 24 → Nat) (h : Fin 24) :
    (∑ i, Function.update f h (f h + 1) i) = (∑ i, f i) + 1 := by
  rw [Finset.sum_update_of_mem (Finset.mem_univ h),
    Finset.sum_eq_add_sum_diff_singleton (Finset.mem_univ h) f]
  omega

/-- The hourly sample counters agree with a number `n` of samples. -/
theorem apply_hourly_sum (s : ZramStats) (t : Tick) (n : Nat)
    (h : (∑ i, s.TimeAnalysis.HourlySamples i) = n) (hn : n + 1 < u64) :
    (t.apply s).TimeAnalysis.HourlySamples t.hour = s.TimeAnalysis.HourlySamples t.hour + 1 ∧
    (∑ i, (t.apply s).TimeAnalysis.HourlySamples i) = n + 1 := by
  have hle : s.TimeAnalysis.HourlySamples t.hour ≤ ∑ i, s.TimeAnalysis.HourlySamples i :=
    Finset.single_le_sum (f := s.TimeAnalysis.HourlySamples) (fun i _ => Nat.zero_le _)
      (Finset.mem_univ t.hour)
  have e : (s.TimeAnalysis.HourlySamples t.hour + 1) % u64
      = s.TimeAnalysis.HourlySamples t.hour + 1 := Nat.mod_eq_of_lt (by omega)
  rw [apply_HourlySamples, e, sum_update_succ, h]
  simp

theorem applyAll_hourly_sum (ts : List Tick) (s : ZramStats) (n : Nat)
    (h : (∑ i, s.TimeAnalysis.HourlySamples i) = n) (hn : n + ts.length < u64) :
    (∑ i, (applyAll s ts).TimeAnalysis.HourlySamples i) = n + ts.length := by
  induction ts generalizing s n with
  | nil => simpa [applyAll_nil] using h
  | cons t ts ih =>
    rw [applyAll_cons]
    have hlen : (t :: ts).length = ts.length + 1 := List.length_cons t ts
    have h1 := (apply_hourly_sum s t n h (by omega)).2
    have h2 := ih (t.apply s) (n + 1) h1 (by omega)
    rw [h2, hlen]
    omega

theorem fresh_hourly_sum (memTotal : Nat) (kernelVersion : GoString) (now : Time)
    (algorithm : GoString) (initialSize : Nat) :
    (∑ i, (freshStats memTotal kernelVersion now algorithm initialSize).TimeAnalysis.HourlySamples
      i) = 0 := by
  simp [freshStats, ZramStats.zero]

/-- C9 (amended): for fewer than 2^64 updates applied to freshly created statistics the
24 entries of `hourly_samples` sum to `sample_count`; every single update raises
`hourly_samples` at the index of its hour by one, adds `memUsed` to `hourly_usage` at that
index modulo 2^64 (exactly that sum when it stays below 2^64), and leaves the other 23
entries of both arrays unchanged. -/
theorem hourly_count_invariant (memTotal : Nat) (kernelVersion : GoString) (now : Time)
    (algorithm : GoString) (initialSize : Nat) (ts : List Tick) (hlen : ts.length < u64) :
    (∑ i, (applyAll (freshStats memTotal kernelVersion now algorithm initialSize)
        ts).TimeAnalysis.HourlySamples i)
      = (applyAll (freshStats memTotal kernelVersion now algorithm initialSize)
          ts).CompressionStats.SampleCount ∧
    ∀ (pre : List Tick) (t : Tick) (post : List Tick), ts = pre ++ t :: post →
      ∀ s : ZramStats,
        s = applyAll (freshStats memTotal kernelVersion now algorithm initialSize) pre →
        (t.apply s).TimeAnalysis.HourlySamples t.hour
          = s.TimeAnalysis.HourlySamples t.hour + 1 ∧
        (t.apply s).TimeAnalysis.HourlyUsage t.hour
          = (s.TimeAnalysis.HourlyUsage t.hour + t.memUsed) % u64 ∧
        (s.TimeAnalysis.HourlyUsage t.hour + t.memUsed < u64 →
          (t.apply s).TimeAnalysis.HourlyUsage t.hour
            = s.TimeAnalysis.HourlyUsage t.hour + t.memUsed) ∧
        ∀ i : Fin 24, i ≠ t.hour →
          (t.apply s).TimeAnalysis.HourlySamples i = s.TimeAnalysis.HourlySamples i ∧
          (t.apply s).TimeAnalysis.HourlyUsage i = s.TimeAnalysis.HourlyUsage i := by
  have h0 := fresh_hourly_sum memTotal kernelVersion now algorithm initialSize
  have hc := (fresh_SampleCount_eq_length memTotal kernelVersion now algorithm initialSize
    ts hlen)
  have hall := applyAll_hourly_sum ts _ 0 h0 (by omega)
  rw [Nat.zero_add] at hall
  refine ⟨hall.trans hc.symm, ?_⟩
  intro pre t post hts s hs
  have hl : pre.length + 1 ≤ ts.length := by
    rw [hts, List.length_append, List.length_cons]; omega
  have hpre := applyAll_hourly_sum pre _ 0 h0 (by omega)
  rw [Nat.zero_add, ← hs] at hpre
  have hu : (t.apply s).TimeAnalysis.HourlyUsage t.hour
      = (s.TimeAnalysis.HourlyUsage t.hour + t.memUsed) % u64 := by
    rw [apply_HourlyUsage, Function.update_same]
  refine ⟨(apply_hourly_sum s t pre.length hpre (by omega)).1, hu, ?_, ?_⟩
  · intro hlt
    rw [hu, Nat.mod_eq_of_lt hlt]
  · intro i hi
    rw [apply_HourlySamples, apply_HourlyUsage, Function.update_noteq hi,
      Function.update_noteq hi]
    exact ⟨rfl, rfl⟩

/-- Witness of `hourly_count_invariant`: two updates in hour 3 and one in hour 17. -/
theorem hourly_count_invariant_witness :
    ([⟨100, 15, 6, 3⟩, ⟨100, 35, 6, 3⟩, ⟨100, 45, 0, 17⟩] : List Tick).length < u64 ∧
    (∑ i, (applyAll (freshStats 0 "" Time.zero "zstd" 8589934592)
        [⟨100, 15, 6, 3⟩, ⟨100, 35, 6, 3⟩, ⟨100, 45, 0, 17⟩]).TimeAnalysis.HourlySamples i)
      = (applyAll (freshStats 0 "" Time.zero "zstd" 8589934592)
          [⟨100, 15, 6, 3⟩, ⟨100, 35, 6, 3⟩, ⟨100, 45, 0, 17⟩]).CompressionStats.SampleCount :=
  ⟨by decide, (hourly_count_invariant 0 "" Time.zero "zstd" 8589934592
      [⟨100, 15, 6, 3⟩, ⟨100, 35, 6, 3⟩, ⟨100, 45, 0, 17⟩] (by decide)).1⟩

theorem applyAll_HourlySamples (ts : List Tick) (s : ZramStats) (h : Fin 24)
    (hs : s.TimeAnalysis.HourlySamples h < u64) :
    (applyAll s ts).TimeAnalysis.HourlySamples h
      = (s.TimeAnalysis.HourlySamples h + ts.countP (fun t => t.hour = h)) % u64 := by
  induction ts using List.reverseRecOn with
  | nil => simp [applyAll_nil, Nat.mod_eq_of_lt hs]
  | append_singleton ts t ih =>
    rw [applyAll_snoc, apply_HourlySamples, List.countP_append]
    by_cases hh : t.hour = h
    · subst hh
      rw [Function.update_same, ih]
      simp only [List.countP_cons, List.countP_nil, decide_True, if_true, u64]
      omega
    · rw [Function.update_noteq (Ne.symm hh), ih]
      simp [List.countP_cons, hh]

/-- C9 as stated fails on wrap-around. Two updates with `memUsed = 2^63` in the same hour
leave `hourly_usage` at 0 for that hour, not at the sum of the two; and after 2^63 updates
in hour 0 followed by 2^63 updates in hour 1 the hourly sample counters do not sum to
`sample_count`, which is 0. -/
theorem hourly_counters_wrap :
    ((applyAll (freshStats 0 "" Time.zero "" 0)
        [⟨0, 0, 2 ^ 63, 0⟩]).TimeAnalysis.HourlyUsage 0 = 2 ^ 63 ∧
      (applyAll (freshStats 0 "" Time.zero "" 0)
        [⟨0, 0, 2 ^ 63, 0⟩, ⟨0, 0, 2 ^ 63, 0⟩]).TimeAnalysis.HourlyUsage 0 = 0) ∧
    (∑ i, (applyAll (freshStats 0 "" Time.zero "" 0)
        (List.replicate (2 ^ 63) (⟨0, 0, 0, 0⟩ : Tick)
          ++ List.replicate (2 ^ 63) (⟨0, 0, 0, 1⟩ : Tick))).TimeAnalysis.HourlySamples i)
      ≠ (applyAll (freshStats 0 "" Time.zero "" 0)
        (List.replicate (2 ^ 63) (⟨0, 0, 0, 0⟩ : Tick)
          ++ List.replicate (2 ^ 63) (⟨0, 0, 0, 1⟩ : Tick))).CompressionStats.SampleCount := by
  refine ⟨⟨by decide!, by decide!⟩, ?_⟩
  have hc := applyAll_SampleCount
    (List.replicate (2 ^ 63) (⟨0, 0, 0, 0⟩ : Tick)
      ++ List.replicate (2 ^ 63) (⟨0, 0, 0, 1⟩ : Tick))
    (freshStats 0 "" Time.zero "" 0) (by decide)
  rw [List.length_append, List.length_replicate, List.length_replicate] at hc
  have hc0 : ((freshStats 0 "" Time.zero "" 0).CompressionStats.SampleCount
      + (2 ^ 63 + 2 ^ 63)) % u64 = 0 := by decide
  rw [hc0] at hc
  have hh := applyAll_HourlySamples
    (List.replicate (2 ^ 63) (⟨0, 0, 0, 0⟩ : Tick)
      ++ List.replicate (2 ^ 63) (⟨0, 0, 0, 1⟩ : Tick))
    (freshStats 0 "" Time.zero "" 0) 0 (by decide)
  rw [List.countP_append, List.countP_replicate, List.countP_replicate] at hh
  have hh0 : ((freshStats 0 "" Time.zero "" 0).TimeAnalysis.HourlySamples 0
      + ((if decide ((⟨0, 0, 0, 0⟩ : Tick).hour = 0) = true then 2 ^ 63 else 0)
        + (if decide ((⟨0, 0, 0, 1⟩ : Tick).hour = 0) = true then 2 ^ 63 else 0))) % u64
      = 2 ^ 63 := by decide
  rw [hh0] at hh
  have hle := Finset.single_le_sum
    (f := (applyAll (freshStats 0 "" Time.zero "" 0)
        (List.replicate (2 ^ 63) (⟨0, 0, 0, 0⟩ : Tick)
          ++ List.replicate (2 ^ 63) (⟨0, 0, 0, 1⟩ : Tick))).TimeAnalysis.HourlySamples)
    (fun i _ => Nat.zero_le _) (Finset.mem_univ (0 : Fin 24))
  rw [hc]
  rw [hh] at hle
  intro h0
  rw [h0] at hle
  exact absurd hle (by decide)

/-! ### Memory minimum -/

/-- C6 fails on the code: a reading of 0 is taken for "no minimum yet". After the two
updates with `memUsed = 0` and `memUsed = 5`, `min_usage` is 5, above the first reading;
`peak_usage` is 5 as it should be. -/
theorem min_usage_zero_sentinel :
    (applyAll (freshStats 0 "" Time.zero "zstd" 8589934592)
        [⟨100, 15, 0, 0⟩, ⟨100, 15, 5, 0⟩]).MemoryStats.MinUsage = 5 ∧
    (applyAll (freshStats 0 "" Time.zero "zstd" 8589934592)
        [⟨100, 15, 0, 0⟩, ⟨100, 15, 5, 0⟩]).MemoryStats.PeakUsage = 5 ∧
    ¬ (∀ t ∈ ([⟨100, 15, 0, 0⟩, ⟨100, 15, 5, 0⟩] : List Tick),
        (applyAll (freshStats 0 "" Time.zero "zstd" 8589934592)
          [⟨100, 15, 0, 0⟩, ⟨100, 15, 5, 0⟩]).MemoryStats.MinUsage ≤ t.memUsed) := by
  have h1 : (applyAll (freshStats 0 "" Time.zero "zstd" 8589934592)
        [⟨100, 15, 0, 0⟩, ⟨100, 15, 5, 0⟩]).MemoryStats.MinUsage = 5 := by decide!
  refine ⟨h1, by decide!, ?_⟩
  intro h
  have h2 := h ⟨100, 15, 0, 0⟩ (by simp)
  rw [h1] at h2
  exact absurd h2 (by decide)

/-! ### Best and worst ratio -/

theorem sampleRatio_ordNonneg (origSize compSize : Nat) (ho : origSize < u64) :
    F64.OrdNonneg (sampleRatio origSize compSize) := by
  unfold sampleRatio
  simp only []
  split_ifs with h0
  · exact Or.inl ⟨1, by norm_num, rfl⟩
  · obtain ⟨b, hb, hbe⟩ := F64.ofUInt64_pos origSize (by omega) ho
    rw [hbe]
    rcases F64.ofUInt64_ordNonneg compSize with ⟨a, ha, hae⟩ | hinf
    · rw [hae]
      simp only [F64.div, if_neg (ne_of_gt hb)]
      exact F64.round_ordNonneg _ (div_nonneg ha hb.le)
    · rw [hinf]
      simp only [F64.div]
      have : decide (b < 0) = false := by simpa using hb.le
      rw [this]
      exact Or.inr rfl

theorem Tick.ratio_ordNonneg (t : Tick) (h : t.valid) : F64.OrdNonneg t.ratio :=
  sampleRatio_ordNonneg t.origSize t.compSize h.1

theorem updateCompression_BestRatio (c : CompressionStatsT) (r : F64) :
    (updateCompression c r).BestRatio
      = if c.SampleCount = 0 ∨ F64.lt r c.BestRatio = true then r else c.BestRatio := by
  unfold updateCompression
  simp only []
  split_ifs <;> rfl

theorem updateCompression_WorstRatio (c : CompressionStatsT) (r : F64) :
    (updateCompression c r).WorstRatio
      = if F64.lt c.WorstRatio r = true then r else c.WorstRatio := by
  unfold updateCompression F64.gt
  simp only []
  split_ifs <;> rfl

theorem F64.OrdNonneg.zero_le {r : F64} (h : F64.OrdNonneg r) : F64.le (F64.fin 0) r = true := by
  rcases h with ⟨q, hq, rfl⟩ | rfl <;> simp [F64.le, *]

theorem apply_RatioInv (s : ZramStats) (seen : List Tick) (t : Tick) (ht : t.valid)
    (hc : s.CompressionStats.SampleCount = 0 ↔ seen = [])
    (h : RatioInv s.CompressionStats seen) :
    RatioInv (t.apply s).CompressionStats (seen ++ [t]) := by
  obtain ⟨hw, hw0, hb, hall⟩ := h
  have hr := t.ratio_ordNonneg ht
  have hrn : t.ratio ≠ F64.nan := hr.ne_nan
  have hB : (t.apply s).CompressionStats.BestRatio
      = if s.CompressionStats.SampleCount = 0 ∨ F64.lt t.ratio s.CompressionStats.BestRatio = true
        then t.ratio else s.CompressionStats.BestRatio :=
    updateCompression_BestRatio _ _
  have hW : (t.apply s).CompressionStats.WorstRatio
      = if F64.lt s.CompressionStats.WorstRatio t.ratio = true then t.ratio
        else s.CompressionStats.WorstRatio :=
    updateCompression_WorstRatio _ _
  refine ⟨?_, ?_, ?_, ?_⟩
  · rw [hW]; split_ifs <;> assumption
  · rw [hW]; split_ifs
    · exact hr.zero_le
    · exact hw0
  · intro _
    rw [hB]
    split_ifs with hcond
    · exact hrn
    · exact hb (fun h => hcond (Or.inl (hc.2 h)))
  · intro u hu
    rw [List.mem_append, List.mem_singleton] at hu
    constructor
    · rw [hB]
      split_ifs with hcond
      · rcases hu with hu | rfl
        · rcases hcond with h0 | hlt
          · rw [hc.1 h0] at hu; simp at hu
          · exact F64.le_chain (F64.le_of_lt_true hlt) (hall u hu).1
        · exact F64.le_refl_of_ne_nan hrn
      · rcases hu with hu | rfl
        · exact (hall u hu).1
        · have hne : seen ≠ [] := fun h => hcond (Or.inl (hc.2 h))
          have hlt : F64.lt u.ratio s.CompressionStats.BestRatio = false := by
            by_contra h'
            exact hcond (Or.inr (by simpa using h'))
          exact F64.le_of_lt_eq_false hrn (hb hne) hlt
    · rw [hW]
      split_ifs with hcond
      · rcases hu with hu | rfl
        · exact F64.le_chain (hall u hu).2 (F64.le_of_lt_true hcond)
        · exact F64.le_refl_of_ne_nan hrn
      · rcases hu with hu | rfl
        · exact (hall u hu).2
        · have hlt : F64.lt s.CompressionStats.WorstRatio u.ratio = false := by
            simpa using hcond
          exact F64.le_of_lt_eq_false hw hrn hlt

theorem fresh_RatioInv (memTotal : Nat) (kernelVersion : GoString) (now : Time)
    (algorithm : GoString) (initialSize : Nat) :
    RatioInv (freshStats memTotal kernelVersion now algorithm initialSize).CompressionStats [] := by
  refine ⟨by simp [freshStats, ZramStats.zero], by simp [freshStats, ZramStats.zero, F64.le],
    fun h => absurd rfl h, ?_⟩
  intro t ht
  simp at ht

theorem fresh_SampleCount_eq_zero_iff (memTotal : Nat) (kernelVersion : GoString) (now : Time)
    (algorithm : GoString) (initialSize : Nat) (ts : List Tick) (hlen : ts.length < u64) :
    (applyAll (freshStats memTotal kernelVersion now algorithm initialSize)
        ts).CompressionStats.SampleCount = 0 ↔ ts = [] := by
  rw [fresh_SampleCount_eq_length memTotal kernelVersion now algorithm initialSize ts hlen]
  exact List.length_eq_zero

theorem applyAll_RatioInv (memTotal : Nat) (kernelVersion : GoString) (now : Time)
    (algorithm : GoString) (initialSize : Nat) (ts : List Tick) (hlen : ts.length ≤ u64)
    (hv : ∀ t ∈ ts, t.valid) :
    RatioInv (applyAll (freshStats memTotal kernelVersion now algorithm initialSize)
      ts).CompressionStats ts := by
  induction ts using List.reverseRecOn with
  | nil => exact fresh_RatioInv memTotal kernelVersion now algorithm initialSize
  | append_singleton ts t ih =>
    rw [List.length_append, List.length_singleton] at hlen
    rw [applyAll_snoc]
    exact apply_RatioInv _ ts t (hv t (by simp))
      (fresh_SampleCount_eq_zero_iff memTotal kernelVersion now algorithm initialSize ts
        (by omega))
      (ih (by omega) (fun u hu => hv u (by simp [hu])))

theorem first_sample_ratios (s : ZramStats) (t : Tick) (ht : t.valid)
    (hc : s.CompressionStats.SampleCount = 0) (hw : s.CompressionStats.WorstRatio = F64.fin 0) :
    (t.apply s).CompressionStats.BestRatio = t.ratio ∧
    (t.apply s).CompressionStats.WorstRatio = t.ratio := by
  have hB : (t.apply s).CompressionStats.BestRatio
      = if s.CompressionStats.SampleCount = 0 ∨ F64.lt t.ratio s.CompressionStats.BestRatio = true
        then t.ratio else s.CompressionStats.BestRatio :=
    updateCompression_BestRatio _ _
  have hW : (t.apply s).CompressionStats.WorstRatio
      = if F64.lt s.CompressionStats.WorstRatio t.ratio = true then t.ratio
        else s.CompressionStats.WorstRatio :=
    updateCompression_WorstRatio _ _
  refine ⟨by rw [hB, if_pos (Or.inl hc)], ?_⟩
  rw [hW, hw]
  rcases t.ratio_ordNonneg ht with ⟨q, hq, hqe⟩ | hinf
  · rw [hqe]
    by_cases h0 : 0 < q
    · simp [F64.lt, h0]
    · have : q = 0 := le_antisymm (not_lt.mp h0) hq
      simp [F64.lt, this]
  · rw [hinf]
    simp [F64.lt]

/-- C7 (amended): for a non-empty sequence of at most 2^64 updates with uint64 arguments,
applied to freshly created statistics, `best_ratio` is less than or equal to the ratio of
every update and `worst_ratio` is greater than or equal to it; after the first update
both equal the ratio of that update. -/
theorem ratio_bounds (memTotal : Nat) (kernelVersion : GoString) (now : Time)
    (algorithm : GoString) (initialSize : Nat) (ts : List Tick) (hne : ts ≠ [])
    (hlen : ts.length ≤ u64) (hv : ∀ t ∈ ts, t.valid) :
    (∀ t ∈ ts,
      F64.le (applyAll (freshStats memTotal kernelVersion now algorithm initialSize)
        ts).CompressionStats.BestRatio t.ratio = true ∧
      F64.le t.ratio (applyAll (freshStats memTotal kernelVersion now algorithm initialSize)
        ts).CompressionStats.WorstRatio = true) ∧
    ∃ (t : Tick) (rest : List Tick), ts = t :: rest ∧
      (applyAll (freshStats memTotal kernelVersion now algorithm initialSize)
        [t]).CompressionStats.BestRatio = t.ratio ∧
      (applyAll (freshStats memTotal kernelVersion now algorithm initialSize)
        [t]).CompressionStats.WorstRatio = t.ratio := by
  refine ⟨(applyAll_RatioInv memTotal kernelVersion now algorithm initialSize ts hlen hv).2.2.2,
    ?_⟩
  cases ts with
  | nil => exact absurd rfl hne
  | cons t rest =>
    exact ⟨t, rest, rfl,
      first_sample_ratios (freshStats memTotal kernelVersion now algorithm initialSize) t
        (hv t (by simp)) rfl rfl⟩

/-- Witness of `ratio_bounds`: three updates with ratios 0.15, 0.35 and 0.45. -/
theorem ratio_bounds_witness :
    (([⟨100, 15, 6, 0⟩, ⟨100, 35, 6, 0⟩, ⟨100, 45, 0, 0⟩] : List Tick) ≠ [] ∧
      ([⟨100, 15, 6, 0⟩, ⟨100, 35, 6, 0⟩, ⟨100, 45, 0, 0⟩] : List Tick).length ≤ u64 ∧
      ∀ t ∈ ([⟨100, 15, 6, 0⟩, ⟨100, 35, 6, 0⟩, ⟨100, 45, 0, 0⟩] : List Tick), t.valid) ∧
    ∀ t ∈ ([⟨100, 15, 6, 0⟩, ⟨100, 35, 6, 0⟩, ⟨100, 45, 0, 0⟩] : List Tick),
      F64.le (applyAll (freshStats 0 "" Time.zero "zstd" 8589934592)
        [⟨100, 15, 6, 0⟩, ⟨100, 35, 6, 0⟩, ⟨100, 45, 0, 0⟩]).CompressionStats.BestRatio
        t.ratio = true ∧
      F64.le t.ratio (applyAll (freshStats 0 "" Time.zero "zstd" 8589934592)
        [⟨100, 15, 6, 0⟩, ⟨100, 35, 6, 0⟩, ⟨100, 45, 0, 0⟩]).CompressionStats.WorstRatio
        = true :=
  ⟨⟨by decide, by decide, by decide⟩,
    (ratio_bounds 0 "" Time.zero "zstd" 8589934592
      [⟨100, 15, 6, 0⟩, ⟨100, 35, 6, 0⟩, ⟨100, 45, 0, 0⟩] (by decide) (by decide)
      (by decide)).1⟩

/-- C7 as stated fails once `sample_count` has wrapped to 0: after 2^64 updates of ratio
0.5 one more update of ratio 1.0 is taken for the first sample and `best_ratio` becomes
1.0, above the ratio 0.5 of the earlier updates. -/
theorem best_ratio_reseeded :
    (⟨2, 1, 0, 0⟩ : Tick) ∈ List.replicate (2 ^ 64) (⟨2, 1, 0, 0⟩ : Tick) ++ [⟨1, 1, 0, 0⟩] ∧
    (⟨2, 1, 0, 0⟩ : Tick).ratio = F64.fin (1 / 2) ∧
    (applyAll (freshStats 0 "" Time.zero "" 0)
      (List.replicate (2 ^ 64) (⟨2, 1, 0, 0⟩ : Tick)
        ++ [⟨1, 1, 0, 0⟩])).CompressionStats.BestRatio = F64.fin 1 ∧
    F64.le (applyAll (freshStats 0 "" Time.zero "" 0)
      (List.replicate (2 ^ 64) (⟨2, 1, 0, 0⟩ : Tick)
        ++ [⟨1, 1, 0, 0⟩])).CompressionStats.BestRatio (⟨2, 1, 0, 0⟩ : Tick).ratio = false := by
  have hc := applyAll_SampleCount (List.replicate (2 ^ 64) (⟨2, 1, 0, 0⟩ : Tick))
    (freshStats 0 "" Time.zero "" 0) (by decide)
  rw [List.length_replicate] at hc
  have hz : ((freshStats 0 "" Time.zero "" 0).CompressionStats.SampleCount + 2 ^ 64) % u64
      = 0 := by decide
  rw [hz] at hc
  have hb : (applyAll (freshStats 0 "" Time.zero "" 0)
      (List.replicate (2 ^ 64) (⟨2, 1, 0, 0⟩ : Tick)
        ++ [⟨1, 1, 0, 0⟩])).CompressionStats.BestRatio = F64.fin 1 := by
    rw [applyAll_snoc]
    have hB : ((⟨1, 1, 0, 0⟩ : Tick).apply (applyAll (freshStats 0 "" Time.zero "" 0)
        (List.replicate (2 ^ 64) (⟨2, 1, 0, 0⟩ : Tick)))).CompressionStats.BestRatio
        = if (applyAll (freshStats 0 "" Time.zero "" 0)
              (List.replicate (2 ^ 64) (⟨2, 1, 0, 0⟩ : Tick))).CompressionStats.SampleCount = 0 ∨
            F64.lt (⟨1, 1, 0, 0⟩ : Tick).ratio (applyAll (freshStats 0 "" Time.zero "" 0)
              (List.replicate (2 ^ 64) (⟨2, 1, 0, 0⟩ : Tick))).CompressionStats.BestRatio = true
          then (⟨1, 1, 0, 0⟩ : Tick).ratio
          else (applyAll (freshStats 0 "" Time.zero "" 0)
              (List.replicate (2 ^ 64) (⟨2, 1, 0, 0⟩ : Tick))).CompressionStats.BestRatio :=
      updateCompression_BestRatio _ _
    rw [if_pos (Or.inl hc)] at hB
    rw [hB]
    decide!
  have ha : (⟨2, 1, 0, 0⟩ : Tick).ratio = F64.fin (1 / 2) := by decide!
  refine ⟨?_, ha, hb, ?_⟩
  · rw [List.mem_append]
    exact Or.inl (List.mem_replicate.mpr ⟨by decide, rfl⟩)
  · rw [hb, ha]
    decide!

/-! ### Zero original size -/

theorem F64.roundHalfEven_one (a : Nat) : F64.roundHalfEven a 1 = a := by
  unfold F64.roundHalfEven
  simp only [Nat.mod_one, Nat.div_one]
  simp

theorem F64.round_nat_exact (n : Nat) (hn : n ≤ 2 ^ 53) : F64.round (n : ℚ) = F64.fin n := by
  rcases Nat.eq_zero_or_pos n with rfl | h0
  · simp [F64.round]
  · have hL : F64.ilog2 n ≤ 53 := F64.log2Fuel_le n n 53 (by omega)
    have hp : 2 ^ F64.ilog2 n ≤ n := F64.pow_log2Fuel_le n n h0
    unfold F64.round
    have hne : (n : ℚ) ≠ 0 := by exact_mod_cast (by omega : n ≠ 0)
    have hlt : decide ((n : ℚ) < 0) = false := by simp
    rw [if_neg hne, hlt]
    simp only [Rat.num_natCast, Int.natAbs_ofNat, Rat.den_natCast]
    unfold F64.roundPos
    simp only [Bool.false_eq_true, if_false, F64.floorLog2_nat n h0]
    have he : max (F64.ilog2 n : Int) (-1022) = (F64.ilog2 n : Int) := by omega
    rw [he]
    have hno : ¬ (1024 ≤ (F64.ilog2 n : Int) ∨ ((F64.ilog2 n : Int) = 1023 ∧
        (if 0 ≤ (F64.ilog2 n : Int) - 52
          then F64.roundHalfEven n (1 * 2 ^ ((F64.ilog2 n : Int) - 52).toNat)
          else F64.roundHalfEven (n * 2 ^ (-((F64.ilog2 n : Int) - 52)).toNat) 1) = 2 ^ 53)) := by
      omega
    rw [if_neg hno]
    congr 1
    by_cases hk : 0 ≤ (F64.ilog2 n : Int) - 52
    · rw [if_pos hk, if_pos hk]
      by_cases h53 : F64.ilog2 n = 53
      · have hn53 : n = 2 ^ 53 := by rw [h53] at hp; omega
        have ht : ((F64.ilog2 n : Int) - 52).toNat = 1 := by omega
        rw [ht, hn53]
        have : F64.roundHalfEven (2 ^ 53) (1 * 2 ^ 1) * 2 ^ 1 = 2 ^ 53 := by decide
        rw [this]
      · have ht : ((F64.ilog2 n : Int) - 52).toNat = 0 := by omega
        rw [ht]
        simp [F64.roundHalfEven_one]
    · rw [if_neg hk, if_neg hk, F64.roundHalfEven_one]
      have h2 : ((2 ^ (-((F64.ilog2 n : Int) - 52)).toNat : Nat) : ℚ) ≠ 0 := by positivity
      push_cast
      field_simp

theorem updateCompression_TotalRatio (c : CompressionStatsT) (r : F64) :
    (updateCompression c r).TotalRatio = F64.add c.TotalRatio r := by
  unfold updateCompression
  simp only []
  split_ifs <;> rfl

theorem updateCompression_poor (c : CompressionStatsT) (r : F64)
    (h2 : F64.le r lit02 = false) (h3 : F64.le r lit03 = false)
    (h4 : F64.le r lit04 = false) :
    (updateCompression c r).PoorCount = (c.PoorCount + 1) % u64 ∧
    (updateCompression c r).ExcellentCount = c.ExcellentCount ∧
    (updateCompression c r).GoodCount = c.GoodCount ∧
    (updateCompression c r).FairCount = c.FairCount := by
  unfold updateCompression
  simp only [h2, h3, h4, Bool.false_eq_true, if_false]
  split_ifs <;> exact ⟨rfl, rfl, rfl, rfl⟩

/-- C8 (amended): for every statistics value and all `compSize`, `memUsed`, the update
with `origSize = 0` uses the ratio 1.0; the float64 division by zero yields NaN or
+Inf (it does not fail) and its result is discarded; `total_ratio` becomes the float64
sum of its old value and 1.0, which is exactly 1.0 more when the old total is a whole
number below 2^53; `poor_count` becomes `poor_count + 1` modulo 2^64, which is one more
unless the counter was at 2^64 - 1; the three other compression buckets are unchanged. -/
theorem zero_original_size (s : ZramStats) (compSize memUsed : Nat) (hour : Fin 24) :
    sampleRatio 0 compSize = F64.one ∧
    (F64.div (F64.ofUInt64 compSize) (F64.ofUInt64 0) = F64.nan ∨
      F64.div (F64.ofUInt64 compSize) (F64.ofUInt64 0) = F64.inf false) ∧
    (UpdateStats s 0 compSize memUsed hour).CompressionStats.TotalRatio
      = F64.add s.CompressionStats.TotalRatio F64.one ∧
    (∀ n : Nat, n < 2 ^ 53 → s.CompressionStats.TotalRatio = F64.fin n →
      (UpdateStats s 0 compSize memUsed hour).CompressionStats.TotalRatio = F64.fin (n + 1)) ∧
    (UpdateStats s 0 compSize memUsed hour).CompressionStats.PoorCount
      = (s.CompressionStats.PoorCount + 1) % u64 ∧
    (s.CompressionStats.PoorCount + 1 < u64 →
      (UpdateStats s 0 compSize memUsed hour).CompressionStats.PoorCount
        = s.CompressionStats.PoorCount + 1) ∧
    (UpdateStats s 0 compSize memUsed hour).CompressionStats.ExcellentCount
      = s.CompressionStats.ExcellentCount ∧
    (UpdateStats s 0 compSize memUsed hour).CompressionStats.GoodCount
      = s.CompressionStats.GoodCount ∧
    (UpdateStats s 0 compSize memUsed hour).CompressionStats.FairCount
      = s.CompressionStats.FairCount := by
  have hr : sampleRatio 0 compSize = F64.one := by simp [sampleRatio]
  have h2 : F64.le F64.one lit02 = false := by decide!
  have h3 : F64.le F64.one lit03 = false := by decide!
  have h4 : F64.le F64.one lit04 = false := by decide!
  have hT : (UpdateStats s 0 compSize memUsed hour).CompressionStats.TotalRatio
      = F64.add s.CompressionStats.TotalRatio F64.one := by
    rw [← hr]
    exact updateCompression_TotalRatio _ _
  have hB := updateCompression_poor s.CompressionStats F64.one h2 h3 h4
  rw [← hr] at hB
  have hP : (UpdateStats s 0 compSize memUsed hour).CompressionStats.PoorCount
      = (s.CompressionStats.PoorCount + 1) % u64 := hB.1
  refine ⟨hr, ?_, hT, ?_, hP, ?_, ?_, ?_, ?_⟩
  · have h0 : F64.ofUInt64 0 = F64.fin 0 := by simp [F64.ofUInt64, F64.round]
    rw [h0]
    rcases F64.ofUInt64_ordNonneg compSize with ⟨a, ha, hae⟩ | hinf
    · rw [hae]
      by_cases ha0 : a = 0
      · left; simp [F64.div, ha0]
      · right
        have : decide (a < 0) = false := by simpa using ha
        simp [F64.div, ha0, this]
    · right; rw [hinf]; simp [F64.div]
  · intro n hn hfin
    rw [hT, hfin]
    have h := F64.round_nat_exact (n + 1) (by omega)
    simp only [F64.add, F64.one]
    push_cast at h
    exact h
  · intro hlt
    rw [hP, Nat.mod_eq_of_lt hlt]
  · exact hB.2.1
  · exact hB.2.2.1
  · exact hB.2.2.2

/-- Witness of `zero_original_size`: the first update of fresh statistics, with
`origSize = 0`. -/
theorem zero_original_size_witness :
    ((0 : Nat) < 2 ^ 53 ∧
      (freshStats 0 "" Time.zero "zstd" 8589934592).CompressionStats.TotalRatio
        = F64.fin ((0 : Nat) : ℚ) ∧
      (freshStats 0 "" Time.zero "zstd" 8589934592).CompressionStats.PoorCount + 1 < u64) ∧
    (UpdateStats (freshStats 0 "" Time.zero "zstd" 8589934592) 0 7 9 3).CompressionStats.TotalRatio
      = F64.fin (((0 : Nat) : ℚ) + 1) ∧
    (UpdateStats (freshStats 0 "" Time.zero "zstd" 8589934592) 0 7 9 3).CompressionStats.PoorCount
      = (freshStats 0 "" Time.zero "zstd" 8589934592).CompressionStats.PoorCount + 1 :=
  ⟨⟨by decide, by simp [freshStats, ZramStats.zero], by decide⟩,
    (zero_original_size (freshStats 0 "" Time.zero "zstd" 8589934592) 7 9 3).2.2.2.1 0
      (by decide) (by simp [freshStats, ZramStats.zero]),
    (zero_original_size (freshStats 0 "" Time.zero "zstd" 8589934592) 7 9 3).2.2.2.2.2.1
      (by decide)⟩

/-- C8 as stated fails for some statistics values: with `total_ratio = 2^53` the float64
sum `total_ratio + 1.0` rounds back to 2^53, so the total does not grow, and with
`poor_count = 2^64 - 1` the counter wraps to 0. -/
theorem zero_original_size_saturated :
    saturatedStats.CompressionStats.TotalRatio = F64.fin 9007199254740992 ∧
    (UpdateStats saturatedStats 0 0 0 0).CompressionStats.TotalRatio
      = F64.fin 9007199254740992 ∧
    saturatedStats.CompressionStats.PoorCount = 18446744073709551615 ∧
    (UpdateStats saturatedStats 0 0 0 0).CompressionStats.PoorCount = 0 :=
  ⟨rfl, by decide!, rfl, by decide!⟩

/-! ## Sampling -/

theorem readMMStats_short (sys : Sysfs) (deviceID : Int) (data : GoString)
    (h : sys deviceID "mm_stat" = some data) (hl : (Fields data).length < 3) :
    readMMStats sys deviceID = Run.panic "slice bounds out of range [:3]" := by
  simp [readMMStats, h, hl]

theorem CollectMetrics_short (sys : Sysfs) (deviceID : Int) (data : GoString)
    (h : sys deviceID "mm_stat" = some data) (hl : (Fields data).length < 3) :
    CollectMetrics sys deviceID = Run.panic "slice bounds out of range [:3]" := by
  simp [CollectMetrics, readMMStats_short sys deviceID data h hl]

/-- C10 fails on the code: with an empty `mm_stat`, or one with two fields, the slice
expression `fields[:3]` of `readMMStats` panics, and so do `CollectMetrics` and the
collection cycle `collectAndStore`; there is neither a sample nor an error value. -/
theorem mm_stat_short_panics :
    readMMStats (sysfsWithMMStat "") 0 = Run.panic "slice bounds out of range [:3]" ∧
    CollectMetrics (sysfsWithMMStat "") 0 = Run.panic "slice bounds out of range [:3]" ∧
    readMMStats (sysfsWithMMStat "4096 1024\n") 0
      = Run.panic "slice bounds out of range [:3]" ∧
    CollectMetrics (sysfsWithMMStat "4096 1024\n") 0
      = Run.panic "slice bounds out of range [:3]" ∧
    (∀ (hour : Fin 24) (stats : ZramStats) (fs : FS) (o1 o2 : WriteOutcome),
      collectAndStore (sysfsWithMMStat "") 0 hour stats fs o1 o2
        = Run.panic "slice bounds out of range [:3]") := by
  refine ⟨by decide, by decide, by decide, by decide, ?_⟩
  intro hour stats fs o1 o2
  have h : CollectMetrics (sysfsWithMMStat "") 0
      = Run.panic "slice bounds out of range [:3]" := by decide
  simp [collectAndStore, h]

theorem parseFields_length (fields : List GoString) (i : Nat) (stats out : List Nat)
    (h : parseFields fields i stats = Run.ok out) : out.length = stats.length := by
  induction fields generalizing i stats with
  | nil =>
    simp only [parseFields, Run.ok.injEq] at h
    rw [← h]
  | cons f rest ih =>
    unfold parseFields at h
    cases hp : ParseUint f with
    | error e => simp [hp] at h
    | ok v =>
      simp only [hp] at h
      rw [ih (i + 1) (stats.set i v) h, List.length_set]

theorem parseFields_ne_panic (fields : List GoString) (i : Nat) (stats : List Nat) (m : String) :
    parseFields fields i stats ≠ Run.panic m := by
  induction fields generalizing i stats with
  | nil => simp [parseFields]
  | cons f rest ih =>
    unfold parseFields
    cases hp : ParseUint f with
    | error e => simp
    | ok v => exact ih (i + 1) (stats.set i v)

/-- With three fields or more in `mm_stat`, or with an unreadable `mm_stat`,
`CollectMetrics` does not panic: it returns three counters or an error. -/
theorem CollectMetrics_ne_panic (sys : Sysfs) (deviceID : Int)
    (h : ∀ data, sys deviceID "mm_stat" = some data → 3 ≤ (Fields data).length) (m : String) :
    CollectMetrics sys deviceID ≠ Run.panic m := by
  unfold CollectMetrics
  cases hr : readMMStats sys deviceID with
  | panic m2 =>
    exfalso
    unfold readMMStats at hr
    cases hd : sys deviceID "mm_stat" with
    | none => simp [hd] at hr
    | some data =>
      have h3 := h data hd
      simp only [hd, if_neg (by omega : ¬ (Fields data).length < 3)] at hr
      exact parseFields_ne_panic _ _ _ _ hr
  | err e =>
    simp only []
    cases ReadSysfsValue sys deviceID "orig_data_size" <;> simp only [] <;>
      first
      | exact fun h => Run.noConfusion h
      | (cases ReadSysfsValue sys deviceID "compr_data_size" <;> simp only [] <;>
          first
          | exact fun h => Run.noConfusion h
          | (cases ReadSysfsValue sys deviceID "mem_used_total" <;> simp only [] <;>
              exact fun h => Run.noConfusion h))
  | ok stats =>
    unfold readMMStats at hr
    cases hd : sys deviceID "mm_stat" with
    | none => simp [hd] at hr
    | some data =>
      have h3 := h data hd
      simp only [hd, if_neg (by omega : ¬ (Fields data).length < 3)] at hr
      have hl := parseFields_length _ _ _ _ hr
      rw [List.length_replicate] at hl
      match stats, hl with
      | a :: b :: c :: rest, _ => simp
      | [], hl => simp at hl; omega
      | [a], hl => simp at hl; omega
      | [a, b], hl => simp at hl; omega

/-! ## Persistence -/

theorem backupPath_ne_statsPath : backupPath ≠ getStatsPath := by decide

theorem osWriteFile_other (fs : FS) (path other : String) (data : Json) (o : WriteOutcome)
    (h : other ≠ path) : (osWriteFile fs path data o).1.files other = fs.files other := by
  cases o <;> simp [osWriteFile, Function.update_noteq h]

theorem osWriteFile_ok (fs : FS) (path : String) (data : Json) (o : WriteOutcome)
    (h : (osWriteFile fs path data o).2 = .ok ()) :
    o = WriteOutcome.ok ∧
    (osWriteFile fs path data o).1.files path = some (FileData.doc data) ∧
    (osWriteFile fs path data o).1.writes = fs.writes ++ [path] := by
  cases o <;> simp_all [osWriteFile]

theorem osWriteFile_error (fs : FS) (path : String) (data : Json) (o : WriteOutcome)
    (h : (osWriteFile fs path data o).2 ≠ .ok ()) :
    (osWriteFile fs path data o).1.writes = fs.writes ∨
    (osWriteFile fs path data o).1.writes = fs.writes ++ [path] := by
  cases o <;> simp_all [osWriteFile]

theorem writeStatsToPath_other (stats : ZramStats) (path other : String) (fs : FS)
    (o : WriteOutcome) (h : other ≠ path) :
    (writeStatsToPath stats path fs o).1.files other = fs.files other := by
  unfold writeStatsToPath
  cases hm : marshal stats with
  | error e => rfl
  | ok data =>
    have := osWriteFile_other fs path other data o h
    cases o <;> simp_all [osWriteFile]

theorem writeStatsToPath_ok (stats : ZramStats) (path : String) (fs : FS) (o : WriteOutcome)
    (h : (writeStatsToPath stats path fs o).2 = .ok ()) :
    ∃ data, marshal stats = .ok data ∧
      (writeStatsToPath stats path fs o).1.files path = some (FileData.doc data) ∧
      (writeStatsToPath stats path fs o).1.writes = fs.writes ++ [path] := by
  unfold writeStatsToPath at h ⊢
  cases hm : marshal stats with
  | error e => simp [hm] at h
  | ok data =>
    refine ⟨data, rfl, ?_⟩
    cases o <;> simp_all [osWriteFile]

theorem writeStatsToPath_writes (stats : ZramStats) (path : String) (fs : FS)
    (o : WriteOutcome) :
    (writeStatsToPath stats path fs o).1.writes = fs.writes ∨
    (writeStatsToPath stats path fs o).1.writes = fs.writes ++ [path] := by
  unfold writeStatsToPath
  cases hm : marshal stats with
  | error e => exact Or.inl rfl
  | ok data => cases o <;> simp [osWriteFile]

theorem SaveStats_of_backup_ok (stats : ZramStats) (fs : FS) (o1 o2 : WriteOutcome)
    (h : (writeStatsToPath stats backupPath fs o1).2 = .ok ()) :
    SaveStats stats fs o1 o2
      = (match writeStats stats (writeStatsToPath stats backupPath fs o1).1 o2 with
        | (fs2, .error e) => (fs2, .error ("writing stats: " ++ e))
        | (fs2, .ok ()) => (fs2, .ok ())) := by
  unfold SaveStats
  generalize writeStatsToPath stats backupPath fs o1 = r at h ⊢
  obtain ⟨fs1, res⟩ := r
  cases res with
  | error e => simp at h
  | ok u => rfl

theorem SaveStats_of_backup_error (stats : ZramStats) (fs : FS) (o1 o2 : WriteOutcome)
    (h : (writeStatsToPath stats backupPath fs o1).2 ≠ .ok ()) :
    (SaveStats stats fs o1 o2).1 = (writeStatsToPath stats backupPath fs o1).1 ∧
    (SaveStats stats fs o1 o2).2 ≠ .ok () := by
  unfold SaveStats
  generalize writeStatsToPath stats backupPath fs o1 = r at h ⊢
  obtain ⟨fs1, res⟩ := r
  cases res with
  | error e => simp
  | ok u => exact absurd rfl h

theorem SaveStats_fst (stats : ZramStats) (fs : FS) (o1 o2 : WriteOutcome)
    (h : (writeStatsToPath stats backupPath fs o1).2 = .ok ()) :
    (SaveStats stats fs o1 o2).1
      = (writeStatsToPath stats getStatsPath (writeStatsToPath stats backupPath fs o1).1 o2).1 ∧
    ((SaveStats stats fs o1 o2).2 = .ok () ↔
      (writeStatsToPath stats getStatsPath (writeStatsToPath stats backupPath fs o1).1 o2).2
        = .ok ()) := by
  rw [SaveStats_of_backup_ok stats fs o1 o2 h]
  unfold writeStats
  generalize writeStatsToPath stats getStatsPath (writeStatsToPath stats backupPath fs o1).1 o2
    = r
  obtain ⟨fs2, res⟩ := r
  cases res with
  | error e => simp
  | ok u => simp

theorem SaveStats_ok_files (stats : ZramStats) (fs : FS) (o1 o2 : WriteOutcome)
    (hok : (SaveStats stats fs o1 o2).2 = .ok ()) :
    ∃ data, marshal stats = .ok data ∧
      (SaveStats stats fs o1 o2).1.files backupPath = some (FileData.doc data) ∧
      (SaveStats stats fs o1 o2).1.files getStatsPath = some (FileData.doc data) ∧
      (SaveStats stats fs o1 o2).1.writes = fs.writes ++ [backupPath, getStatsPath] := by
  by_cases hb : (writeStatsToPath stats backupPath fs o1).2 = .ok ()
  · obtain ⟨h1, h2⟩ := SaveStats_fst stats fs o1 o2 hb
    obtain ⟨data, hm, hfb, hwb⟩ := writeStatsToPath_ok stats backupPath fs o1 hb
    obtain ⟨data2, hm2, hfc, hwc⟩ := writeStatsToPath_ok stats getStatsPath
      (writeStatsToPath stats backupPath fs o1).1 o2 (h2.1 hok)
    have hd : data2 = data := by
      rw [hm] at hm2
      exact (Except.ok.inj hm2).symm
    subst hd
    refine ⟨data2, hm, ?_, ?_, ?_⟩
    · rw [h1, writeStatsToPath_other stats getStatsPath backupPath _ o2
        backupPath_ne_statsPath]
      exact hfb
    · rw [h1]; exact hfc
    · rw [h1, hwc, hwb]; simp
  · exact absurd hok (SaveStats_of_backup_error stats fs o1 o2 hb).2

/-- C3: `SaveStats` writes the backup path before the canonical path. When the write of
the backup fails, `SaveStats` returns an error and the canonical file is what it was
before the call; when `SaveStats` returns without error, both files hold the
serialization of the given statistics; and the paths written by the call are none, the
backup alone, or the backup followed by the canonical path. -/
theorem save_backup_then_commit (stats : ZramStats) (fs : FS) (o1 o2 : WriteOutcome) :
    ((writeStatsToPath stats backupPath fs o1).2 ≠ .ok () →
      (SaveStats stats fs o1 o2).2 ≠ .ok () ∧
      (SaveStats stats fs o1 o2).1.files getStatsPath = fs.files getStatsPath) ∧
    ((SaveStats stats fs o1 o2).2 = .ok () →
      ∃ data, marshal stats = .ok data ∧
        (SaveStats stats fs o1 o2).1.files backupPath = some (FileData.doc data) ∧
        (SaveStats stats fs o1 o2).1.files getStatsPath = some (FileData.doc data) ∧
        (SaveStats stats fs o1 o2).1.writes = fs.writes ++ [backupPath, getStatsPath]) ∧
    ((SaveStats stats fs o1 o2).1.writes = fs.writes ∨
      (SaveStats stats fs o1 o2).1.writes = fs.writes ++ [backupPath] ∨
      (SaveStats stats fs o1 o2).1.writes = fs.writes ++ [backupPath, getStatsPath]) := by
  have hne : getStatsPath ≠ backupPath := fun h => backupPath_ne_statsPath h.symm
  by_cases hb : (writeStatsToPath stats backupPath fs o1).2 = .ok ()
  · obtain ⟨h1, h2⟩ := SaveStats_fst stats fs o1 o2 hb
    obtain ⟨data, hm, hfb, hwb⟩ := writeStatsToPath_ok stats backupPath fs o1 hb
    refine ⟨fun h => absurd hb h, ?_, ?_⟩
    · exact SaveStats_ok_files stats fs o1 o2
    · rw [h1]
      rcases writeStatsToPath_writes stats getStatsPath
        (writeStatsToPath stats backupPath fs o1).1 o2 with hw | hw
      · right; left; rw [hw, hwb]
      · right; right; rw [hw, hwb]; simp
  · obtain ⟨h1, h2⟩ := SaveStats_of_backup_error stats fs o1 o2 hb
    refine ⟨fun _ => ⟨h2, ?_⟩, fun hok => absurd hok h2, ?_⟩
    · rw [h1]
      exact writeStatsToPath_other stats backupPath getStatsPath fs o1 hne
    · rw [h1]
      rcases writeStatsToPath_writes stats backupPath fs o1 with hw | hw
      · left; exact hw
      · right; left; exact hw

/-- Witness of `save_backup_then_commit`: a save of fresh statistics on an empty file
system whose backup write fails at open, and one whose two writes succeed. -/
theorem save_backup_then_commit_witness :
    ((writeStatsToPath (freshStats 1 "k" ⟨1700000000, 0, 0⟩ "zstd" 5) backupPath FS.empty
        (WriteOutcome.openFails "permission denied")).2 ≠ .ok () ∧
      (SaveStats (freshStats 1 "k" ⟨1700000000, 0, 0⟩ "zstd" 5) FS.empty
        WriteOutcome.ok WriteOutcome.ok).2 = .ok ()) ∧
    (SaveStats (freshStats 1 "k" ⟨1700000000, 0, 0⟩ "zstd" 5) FS.empty
        (WriteOutcome.openFails "permission denied") WriteOutcome.ok).1.files getStatsPath
      = FS.empty.files getStatsPath ∧
    (SaveStats (freshStats 1 "k" ⟨1700000000, 0, 0⟩ "zstd" 5) FS.empty
        WriteOutcome.ok WriteOutcome.ok).1.writes = FS.empty.writes ++ [backupPath, getStatsPath] :=
  ⟨⟨by decide, by decide⟩,
    ((save_backup_then_commit (freshStats 1 "k" ⟨1700000000, 0, 0⟩ "zstd" 5) FS.empty
      (WriteOutcome.openFails "permission denied") WriteOutcome.ok).1 (by decide)).2,
    by
      obtain ⟨_, _, _, _, hw⟩ :=
        (save_backup_then_commit (freshStats 1 "k" ⟨1700000000, 0, 0⟩ "zstd" 5) FS.empty
          WriteOutcome.ok WriteOutcome.ok).2.1 (by decide)
      exact hw⟩

/-! ### Round trip -/

theorem decodeUints_map_uint (l : List Nat) (h : ∀ x ∈ l, x < u64) :
    decodeUints (l.map Json.uint) = .ok l := by
  induction l with
  | nil => rfl
  | cons x xs ih =>
    have hx : x < u64 := h x (by simp)
    have hxs := ih (fun y hy => h y (by simp [hy]))
    simp [decodeUints, decodeUint, hx, hxs]

theorem decodeArray_encodeArray (cur a : Fin 24 → Nat) (h : ∀ i, a i < u64) :
    decodeArray cur (encodeArray a) = .ok a := by
  unfold encodeArray decodeArray
  have hlen : ((List.ofFn a).map Json.uint).length = 24 := by simp
  have htake : ((List.ofFn a).map Json.uint).take 24 = (List.ofFn a).map Json.uint := by
    rw [List.take_of_length_le (by omega)]
  simp only [htake]
  rw [decodeUints_map_uint (List.ofFn a) (by
    intro x hx
    rw [List.mem_ofFn] at hx
    obtain ⟨i, rfl⟩ := hx
    exact h i)]
  simp only []
  congr 1
  funext i
  have hi : i.val < (List.ofFn a).length := by rw [List.length_ofFn]; exact i.isLt
  rw [List.getD_eq_getElem (l := List.ofFn a) (d := 0) hi, List.getElem_ofFn]

theorem decode_systemInfo (cur c : SystemInfoT) (h : c.TotalMemory < u64) :
    decodeObject stepSystemInfo cur (Json.obj [
      ("total_memory", Json.uint c.TotalMemory),
      ("kernel_version", Json.str (toValidUTF8 c.KernelVersion)),
      ("start_time", Json.time c.StartTime)])
      = .ok { c with KernelVersion := toValidUTF8 c.KernelVersion } := by
  simp [decodeObject, List.foldlM, stepSystemInfo, decodeUint, decodeString, decodeTime, h,
    toValidUTF8_idem, bind, Except.bind, pure, Except.pure]

theorem decode_config (cur c : ConfigT) (h : c.InitialSize < u64) :
    decodeObject stepConfig cur (Json.obj [
      ("algorithm", Json.str (toValidUTF8 c.Algorithm)),
      ("initial_size", Json.uint c.InitialSize)])
      = .ok { c with Algorithm := toValidUTF8 c.Algorithm } := by
  simp [decodeObject, List.foldlM, stepConfig, decodeUint, decodeString, h,
    toValidUTF8_idem, bind, Except.bind, pure, Except.pure]

theorem decode_compression (cur c : CompressionStatsT)
    (hb : c.BestRatio.isFinite = true) (hw : c.WorstRatio.isFinite = true)
    (ht : c.TotalRatio.isFinite = true)
    (h : c.SampleCount < u64 ∧ c.ExcellentCount < u64 ∧ c.GoodCount < u64 ∧
      c.FairCount < u64 ∧ c.PoorCount < u64) :
    decodeObject stepCompression cur (Json.obj [
      ("best_ratio", Json.float c.BestRatio),
      ("worst_ratio", Json.float c.WorstRatio),
      ("total_ratio", Json.float c.TotalRatio),
      ("sample_count", Json.uint c.SampleCount),
      ("excellent_count", Json.uint c.ExcellentCount),
      ("good_count", Json.uint c.GoodCount),
      ("fair_count", Json.uint c.FairCount),
      ("poor_count", Json.uint c.PoorCount)]) = .ok c := by
  obtain ⟨h1, h2, h3, h4, h5⟩ := h
  simp [decodeObject, List.foldlM, stepCompression, decodeUint, decodeFloat, hb, hw, ht,
    h1, h2, h3, h4, h5, bind, Except.bind, pure, Except.pure]

theorem decode_memory (cur c : MemoryStatsT)
    (h : c.PeakUsage < u64 ∧ c.MinUsage < u64 ∧ c.TotalUsage < u64 ∧ c.LowCount < u64 ∧
      c.MediumCount < u64 ∧ c.HighCount < u64 ∧ c.CriticalCount < u64) :
    decodeObject stepMemory cur (Json.obj [
      ("peak_usage", Json.uint c.PeakUsage),
      ("min_usage", Json.uint c.MinUsage),
      ("total_usage", Json.uint c.TotalUsage),
      ("low_count", Json.uint c.LowCount),
      ("medium_count", Json.uint c.MediumCount),
      ("high_count", Json.uint c.HighCount),
      ("critical_count", Json.uint c.CriticalCount)]) = .ok c := by
  obtain ⟨h1, h2, h3, h4, h5, h6, h7⟩ := h
  simp [decodeObject, List.foldlM, stepMemory, decodeUint, h1, h2, h3, h4, h5, h6, h7,
    bind, Except.bind, pure, Except.pure]

theorem decode_impact (cur c : SystemImpactT)
    (h : c.OOMEvents < u64 ∧ c.MaxSwapUsed < u64 ∧ c.SwapPressureTime < u64) :
    decodeObject stepImpact cur (Json.obj [
      ("oom_events", Json.uint c.OOMEvents),
      ("max_swap_used", Json.uint c.MaxSwapUsed),
      ("swap_pressure_time", Json.uint c.SwapPressureTime)]) = .ok c := by
  obtain ⟨h1, h2, h3⟩ := h
  simp [decodeObject, List.foldlM, stepImpact, decodeUint, h1, h2, h3,
    bind, Except.bind, pure, Except.pure]

theorem decode_timeAnalysis (cur c : TimeAnalysisT)
    (hu : ∀ i, c.HourlyUsage i < u64) (hs : ∀ i, c.HourlySamples i < u64) :
    decodeObject stepTimeAnalysis cur (Json.obj [
      ("hourly_usage", encodeArray c.HourlyUsage),
      ("hourly_samples", encodeArray c.HourlySamples)]) = .ok c := by
  simp [decodeObject, List.foldlM, stepTimeAnalysis, decodeArray_encodeArray _ _ hu,
    decodeArray_encodeArray _ _ hs, bind, Except.bind, pure, Except.pure]

theorem decodeObject_cons {α : Type} (step : α → String → Json → Except String α) (cur : α)
    (key : String) (v : Json) (rest : List (String × Json)) :
    decodeObject step cur (Json.obj ((key, v) :: rest))
      = (match step cur key v with
        | .error e => .error e
        | .ok c => decodeObject step c (Json.obj rest)) := by
  simp only [decodeObject, List.foldlM, bind, Except.bind]
  cases step cur key v <;> rfl

theorem decodeObject_nil {α : Type} (step : α → String → Json → Except String α) (cur : α) :
    decodeObject step cur (Json.obj []) = .ok cur := rfl

theorem unmarshal_marshal (s : ZramStats) (hwf : s.WellFormed) (data : Json)
    (h : marshal s = .ok data) : unmarshal (FileData.doc data) = .ok s.coerced := by
  obtain ⟨⟨h1, h2⟩, h3, h4, h5, h6, h7⟩ := hwf
  unfold marshal at h
  by_cases hT : s.SystemInfo.StartTime.marshalable = true
  · by_cases hb : s.CompressionStats.BestRatio.isFinite = true
    · by_cases hw : s.CompressionStats.WorstRatio.isFinite = true
      · by_cases ht : s.CompressionStats.TotalRatio.isFinite = true
        · simp only [encodeTime, encodeFloat, hT, hb, hw, ht, if_true, bind, Except.bind,
            pure, Except.pure] at h
          have hd := Except.ok.inj h
          subst hd
          simp only [unmarshal, decodeObject_cons stepStats, decodeObject_nil stepStats,
            stepStats, String.reduceEq, if_true, if_false,
            decode_systemInfo _ s.SystemInfo h1, decode_config _ s.Config h2,
            decode_compression _ s.CompressionStats hb hw ht h3,
            decode_memory _ s.MemoryStats h4, decode_impact _ s.SystemImpact h5,
            decode_timeAnalysis _ s.TimeAnalysis h6 h7, bind, Except.bind, pure, Except.pure]
          rfl
        · simp [encodeTime, encodeFloat, hT, hb, hw, ht, bind, Except.bind] at h
      · simp [encodeTime, encodeFloat, hT, hb, hw, bind, Except.bind] at h
    · simp [encodeTime, encodeFloat, hT, hb, bind, Except.bind] at h
  · simp [encodeTime, hT, bind, Except.bind] at h

theorem u64_pos : 0 < u64 := by decide

theorem updateCompression_wf (c : CompressionStatsT) (r : F64)
    (h : c.SampleCount < u64 ∧ c.ExcellentCount < u64 ∧ c.GoodCount < u64 ∧
      c.FairCount < u64 ∧ c.PoorCount < u64) :
    (updateCompression c r).SampleCount < u64 ∧ (updateCompression c r).ExcellentCount < u64 ∧
    (updateCompression c r).GoodCount < u64 ∧ (updateCompression c r).FairCount < u64 ∧
    (updateCompression c r).PoorCount < u64 := by
  obtain ⟨h1, h2, h3, h4, h5⟩ := h
  have hm : ∀ n, n % u64 < u64 := fun n => Nat.mod_lt n u64_pos
  unfold updateCompression
  simp only []
  split_ifs <;> exact ⟨by first | assumption | exact hm _, by first | assumption | exact hm _,
    by first | assumption | exact hm _, by first | assumption | exact hm _,
    by first | assumption | exact hm _⟩

theorem updateMemory_wf (m : MemoryStatsT) (memUsed initialSize : Nat) (hu : memUsed < u64)
    (h : m.PeakUsage < u64 ∧ m.MinUsage < u64 ∧ m.TotalUsage < u64 ∧ m.LowCount < u64 ∧
      m.MediumCount < u64 ∧ m.HighCount < u64 ∧ m.CriticalCount < u64) :
    (updateMemory m memUsed initialSize).PeakUsage < u64 ∧
    (updateMemory m memUsed initialSize).MinUsage < u64 ∧
    (updateMemory m memUsed initialSize).TotalUsage < u64 ∧
    (updateMemory m memUsed initialSize).LowCount < u64 ∧
    (updateMemory m memUsed initialSize).MediumCount < u64 ∧
    (updateMemory m memUsed initialSize).HighCount < u64 ∧
    (updateMemory m memUsed initialSize).CriticalCount < u64 := by
  obtain ⟨h1, h2, h3, h4, h5, h6, h7⟩ := h
  have hm : ∀ n, n % u64 < u64 := fun n => Nat.mod_lt n u64_pos
  unfold updateMemory
  simp only []
  split_ifs <;> exact ⟨by assumption, by assumption,
    by first | assumption | exact hm _, by first | assumption | exact hm _,
    by first | assumption | exact hm _, by first | assumption | exact hm _,
    by first | assumption | exact hm _⟩

theorem updateHourly_wf (t : TimeAnalysisT) (memUsed : Nat) (hour : Fin 24)
    (hu : ∀ i, t.HourlyUsage i < u64) (hs : ∀ i, t.HourlySamples i < u64) :
    (∀ i, (updateHourly t memUsed hour).HourlyUsage i < u64) ∧
    (∀ i, (updateHourly t memUsed hour).HourlySamples i < u64) := by
  have hm : ∀ n, n % u64 < u64 := fun n => Nat.mod_lt n u64_pos
  constructor
  · intro i
    by_cases hi : i = hour
    · subst hi; simp [updateHourly, hm]
    · simp [updateHourly, Function.update_noteq hi, hu]
  · intro i
    by_cases hi : i = hour
    · subst hi; simp [updateHourly, hm]
    · simp [updateHourly, Function.update_noteq hi, hs]

theorem apply_wf (s : ZramStats) (t : Tick) (ht : t.valid) (h : s.WellFormed) :
    (t.apply s).WellFormed := by
  obtain ⟨h1, h2, h3, h4, h5, h6⟩ := h
  exact ⟨h1, updateCompression_wf _ _ h2, updateMemory_wf _ _ _ ht.2.2 h3, h4,
    (updateHourly_wf _ _ _ h5 h6).1, (updateHourly_wf _ _ _ h5 h6).2⟩

theorem fresh_wf (memTotal : Nat) (kernelVersion : GoString) (now : Time) (algorithm : GoString)
    (initialSize : Nat) (hm : memTotal < u64) (hs : initialSize < u64) :
    (freshStats memTotal kernelVersion now algorithm initialSize).WellFormed := by
  have h0 : 0 < u64 := u64_pos
  exact ⟨⟨hm, hs⟩, ⟨h0, h0, h0, h0, h0⟩, ⟨h0, h0, h0, h0, h0, h0, h0⟩, ⟨h0, h0, h0⟩,
    fun _ => h0, fun _ => h0⟩

theorem applyAll_wf (ts : List Tick) (s : ZramStats) (hv : ∀ t ∈ ts, t.valid)
    (h : s.WellFormed) : (applyAll s ts).WellFormed := by
  induction ts generalizing s with
  | nil => exact h
  | cons t ts ih =>
    rw [applyAll_cons]
    exact ih (t.apply s) (fun u hu => hv u (by simp [hu])) (apply_wf s t (hv t (by simp)) h)

theorem LoadStats_of_canonical (fs : FS) (s : ZramStats) (hwf : s.WellFormed) (data : Json)
    (hm : marshal s = .ok data) (hf : fs.files getStatsPath = some (FileData.doc data)) :
    LoadStats fs = .ok s.coerced := by
  simp [LoadStats, hf, unmarshal_marshal s hwf data hm]

theorem coerced_of_valid (s : ZramStats) (hk : ValidString s.SystemInfo.KernelVersion = true)
    (ha : ValidString s.Config.Algorithm = true) : s.coerced = s := by
  unfold ZramStats.coerced
  rw [toValidUTF8_of_valid _ hk, toValidUTF8_of_valid _ ha]

theorem apply_SystemInfo_Config (s : ZramStats) (t : Tick) :
    (t.apply s).SystemInfo = s.SystemInfo ∧ (t.apply s).Config = s.Config := ⟨rfl, rfl⟩

theorem applyAll_SystemInfo_Config (ts : List Tick) (s : ZramStats) :
    (applyAll s ts).SystemInfo = s.SystemInfo ∧ (applyAll s ts).Config = s.Config := by
  induction ts generalizing s with
  | nil => exact ⟨rfl, rfl⟩
  | cons t ts ih =>
    rw [applyAll_cons]
    exact ⟨(ih (t.apply s)).1.trans (apply_SystemInfo_Config s t).1,
      (ih (t.apply s)).2.trans (apply_SystemInfo_Config s t).2⟩

theorem LoadStats_SaveStats (s : ZramStats) (hwf : s.WellFormed) (fs : FS)
    (o1 o2 : WriteOutcome) (hok : (SaveStats s fs o1 o2).2 = .ok ()) :
    LoadStats (SaveStats s fs o1 o2).1 = .ok s.coerced := by
  obtain ⟨data, hmar, _, hc, _⟩ := SaveStats_ok_files s fs o1 o2 hok
  exact LoadStats_of_canonical _ _ hwf data hmar hc

/-- C4 (amended): for statistics reached from freshly initialized ones by updates with
uint64 arguments, whose `kernel_version` and `algorithm` are valid UTF-8, a `SaveStats`
that returns without error followed by `LoadStats` yields the same statistics, field for
field (the start time as instant and zone offset). In general, for every statistics value
whose uint64 fields hold uint64 values, `LoadStats` then yields the statistics with
`kernel_version` and `algorithm` coerced to valid UTF-8 (every byte that is not valid
UTF-8 replaced by U+FFFD) and all other fields, those of `system_impact` included, as
they were. -/
theorem save_load_round_trip (memTotal : Nat) (kernelVersion : GoString) (now : Time)
    (algorithm : GoString) (initialSize : Nat) (ts : List Tick)
    (hm : memTotal < u64) (hs : initialSize < u64) (hv : ∀ t ∈ ts, t.valid)
    (hk : ValidString kernelVersion = true) (ha : ValidString algorithm = true) :
    (∀ (fs : FS) (o1 o2 : WriteOutcome),
      (SaveStats (applyAll (freshStats memTotal kernelVersion now algorithm initialSize) ts)
        fs o1 o2).2 = .ok () →
      LoadStats (SaveStats (applyAll (freshStats memTotal kernelVersion now algorithm
          initialSize) ts) fs o1 o2).1
        = .ok (applyAll (freshStats memTotal kernelVersion now algorithm initialSize) ts)) ∧
    (∀ (s : ZramStats) (fs : FS) (o1 o2 : WriteOutcome), s.WellFormed →
      (SaveStats s fs o1 o2).2 = .ok () →
      LoadStats (SaveStats s fs o1 o2).1 = .ok s.coerced ∧
      (ValidString s.SystemInfo.KernelVersion = true → ValidString s.Config.Algorithm = true →
        LoadStats (SaveStats s fs o1 o2).1 = .ok s)) := by
  constructor
  · intro fs o1 o2 hok
    have hwf := applyAll_wf ts _ hv
      (fresh_wf memTotal kernelVersion now algorithm initialSize hm hs)
    have hsc := applyAll_SystemInfo_Config ts
      (freshStats memTotal kernelVersion now algorithm initialSize)
    have hk2 : ValidString (applyAll (freshStats memTotal kernelVersion now algorithm
        initialSize) ts).SystemInfo.KernelVersion = true := by
      rw [hsc.1]; exact hk
    have ha2 : ValidString (applyAll (freshStats memTotal kernelVersion now algorithm
        initialSize) ts).Config.Algorithm = true := by
      rw [hsc.2]; exact ha
    rw [LoadStats_SaveStats _ hwf fs o1 o2 hok, coerced_of_valid _ hk2 ha2]
  · intro s fs o1 o2 hwf hok
    refine ⟨LoadStats_SaveStats s hwf fs o1 o2 hok, fun hk2 ha2 => ?_⟩
    rw [LoadStats_SaveStats s hwf fs o1 o2 hok, coerced_of_valid s hk2 ha2]

/-- Witness of `save_load_round_trip`: two updates saved on an empty file system. -/
theorem save_load_round_trip_witness :
    ((17179869184 < u64 ∧ 8589934592 < u64 ∧
      (∀ t ∈ ([⟨4096000, 1024000, 2048000, 9⟩, ⟨8192000, 4096000, 5000000, 10⟩] : List Tick),
        t.valid) ∧
      ValidString "Linux version 6.1.0" = true ∧ ValidString "zstd" = true) ∧
      (SaveStats (applyAll
          (freshStats 17179869184 "Linux version 6.1.0" ⟨1690000000, 0, 0⟩ "zstd" 8589934592)
          [⟨4096000, 1024000, 2048000, 9⟩, ⟨8192000, 4096000, 5000000, 10⟩])
        FS.empty WriteOutcome.ok WriteOutcome.ok).2 = .ok ()) ∧
    LoadStats (SaveStats (applyAll
          (freshStats 17179869184 "Linux version 6.1.0" ⟨1690000000, 0, 0⟩ "zstd" 8589934592)
          [⟨4096000, 1024000, 2048000, 9⟩, ⟨8192000, 4096000, 5000000, 10⟩])
        FS.empty WriteOutcome.ok WriteOutcome.ok).1
      = .ok (applyAll
          (freshStats 17179869184 "Linux version 6.1.0" ⟨1690000000, 0, 0⟩ "zstd" 8589934592)
          [⟨4096000, 1024000, 2048000, 9⟩, ⟨8192000, 4096000, 5000000, 10⟩]) :=
  ⟨⟨⟨by decide, by decide, by decide, by decide, by decide⟩, by decide!⟩,
    (save_load_round_trip 17179869184 "Linux version 6.1.0" ⟨1690000000, 0, 0⟩ "zstd"
      8589934592 [⟨4096000, 1024000, 2048000, 9⟩, ⟨8192000, 4096000, 5000000, 10⟩]
      (by decide) (by decide) (by decide) (by decide) (by decide)).1
      FS.empty WriteOutcome.ok WriteOutcome.ok (by decide!)⟩

/-- C4 as stated fails: `getKernelVersion` keeps the bytes of `/proc/version` as they
are, and the JSON form replaces a byte that is not valid UTF-8 by U+FFFD. On
`rawVersionHost` the statistics carry the byte FF in `kernel_version`; after a
`SaveStats` that returns without error, `LoadStats` returns statistics whose
`kernel_version` holds the bytes EF BF BD in its place, so not the statistics saved. -/
theorem round_trip_changes_kernel_version :
    (InitializeStats rawVersionHost FS.empty "zstd" 8589934592 WriteOutcome.ok).2.toOption.map
        (fun s => s.SystemInfo.KernelVersion)
      = some ⟨[76, 105, 110, 117, 120, 32, 255]⟩ ∧
    rawVersionStats.SystemInfo.KernelVersion = ⟨[76, 105, 110, 117, 120, 32, 255]⟩ ∧
    (SaveStats rawVersionStats FS.empty WriteOutcome.ok WriteOutcome.ok).2 = .ok () ∧
    storedKernelVersion (SaveStats rawVersionStats FS.empty WriteOutcome.ok WriteOutcome.ok).1
      = some ⟨[76, 105, 110, 117, 120, 32, 239, 191, 189]⟩ ∧
    LoadStats (SaveStats rawVersionStats FS.empty WriteOutcome.ok WriteOutcome.ok).1
      ≠ .ok rawVersionStats := by
  have h4 : storedKernelVersion
      (SaveStats rawVersionStats FS.empty WriteOutcome.ok WriteOutcome.ok).1
      = some ⟨[76, 105, 110, 117, 120, 32, 239, 191, 189]⟩ := by decide!
  refine ⟨by decide!, by decide!, by decide!, h4, ?_⟩
  intro h
  unfold storedKernelVersion at h4
  rw [h] at h4
  have h2 : rawVersionStats.SystemInfo.KernelVersion
      = ⟨[76, 105, 110, 117, 120, 32, 255]⟩ := by decide!
  simp only [h2] at h4
  exact absurd h4 (by decide)

/-! ### Loading -/

theorem LoadStats_congr (fs fs2 : FS) (h : fs.files getStatsPath = fs2.files getStatsPath) :
    LoadStats fs = LoadStats fs2 := by
  simp [LoadStats, h]

/-- C2 (amended): `LoadStats` reads the canonical file only. In every file-system state
in which the canonical stats file is missing or does not parse as JSON, `LoadStats`
returns an error, also when the backup file holds a valid serialization of some
statistics. -/
theorem load_without_backup_fallback (fs : FS) (s : ZramStats) (data : Json)
    (_hs : marshal s = .ok data) (_hb : fs.files backupPath = some (FileData.doc data))
    (hc : fs.files getStatsPath = none ∨ fs.files getStatsPath = some FileData.torn) :
    LoadStats fs = .error "stats file not found, run initialize first" ∨
    LoadStats fs = .error "parsing stats file: invalid character" := by
  rcases hc with hc | hc
  · left; simp [LoadStats, hc]
  · right; simp [LoadStats, hc, unmarshal]

theorem writeStatsToPath_openFails (stats : ZramStats) (path : String) (fs : FS)
    (msg : String) : (writeStatsToPath stats path fs (WriteOutcome.openFails msg)).1 = fs := by
  unfold writeStatsToPath
  cases marshal stats <;> rfl

theorem writeStatsToPath_shortWrite (stats : ZramStats) (path : String) (fs : FS)
    (msg : String) (data : Json) (h : marshal stats = .ok data) :
    (writeStatsToPath stats path fs (WriteOutcome.shortWrite msg)).1.files path
      = some FileData.torn := by
  unfold writeStatsToPath
  simp [h, osWriteFile]

/-- The file system in which a `SaveStats` of `earlierStats` was interrupted after the
backup was written: the backup holds their serialization, `canonical` tells what became
of the write of the canonical file. -/
theorem interrupted_save (o2 : WriteOutcome) :
    ∃ data, marshal earlierStats = .ok data ∧
      (SaveStats earlierStats FS.empty WriteOutcome.ok o2).1.files backupPath
        = some (FileData.doc data) ∧
      (SaveStats earlierStats FS.empty WriteOutcome.ok o2).1
        = (writeStatsToPath earlierStats getStatsPath
            (writeStatsToPath earlierStats backupPath FS.empty WriteOutcome.ok).1 o2).1 := by
  have hb : (writeStatsToPath earlierStats backupPath FS.empty WriteOutcome.ok).2 = .ok () := by
    decide!
  obtain ⟨h1, _⟩ := SaveStats_fst earlierStats FS.empty WriteOutcome.ok o2 hb
  obtain ⟨data, hm, hfb, _⟩ := writeStatsToPath_ok earlierStats backupPath FS.empty
    WriteOutcome.ok hb
  refine ⟨data, hm, ?_, h1⟩
  rw [h1, writeStatsToPath_other earlierStats getStatsPath backupPath _ o2
    backupPath_ne_statsPath]
  exact hfb

/-- Witness of `load_without_backup_fallback`: the file system a save leaves behind when
its backup write succeeds and its canonical write cannot open the file. -/
theorem load_without_backup_fallback_witness :
    (∃ data, marshal earlierStats = .ok data ∧
      (SaveStats earlierStats FS.empty WriteOutcome.ok
        (WriteOutcome.openFails "read-only file system")).1.files backupPath
        = some (FileData.doc data)) ∧
    (LoadStats (SaveStats earlierStats FS.empty WriteOutcome.ok
        (WriteOutcome.openFails "read-only file system")).1
        = .error "stats file not found, run initialize first" ∨
      LoadStats (SaveStats earlierStats FS.empty WriteOutcome.ok
        (WriteOutcome.openFails "read-only file system")).1
        = .error "parsing stats file: invalid character") := by
  obtain ⟨d, hm, hb, he⟩ := interrupted_save (WriteOutcome.openFails "read-only file system")
  refine ⟨⟨d, hm, hb⟩, load_without_backup_fallback _ earlierStats d hm hb (Or.inl ?_)⟩
  rw [he, writeStatsToPath_openFails,
    writeStatsToPath_other earlierStats backupPath getStatsPath FS.empty WriteOutcome.ok
      (fun h => backupPath_ne_statsPath h.symm)]
  rfl

/-- C2 as stated fails: when a save is interrupted after the backup was written, so that
the backup holds a valid serialization and the canonical file is missing (the write
could not open it) or torn (the write stopped half way), `LoadStats` returns an error and
not the statistics of the backup. -/
theorem load_ignores_backup :
    (∃ data, marshal earlierStats = .ok data ∧
      (SaveStats earlierStats FS.empty WriteOutcome.ok
        (WriteOutcome.openFails "permission denied")).1.files backupPath
        = some (FileData.doc data)) ∧
    (SaveStats earlierStats FS.empty WriteOutcome.ok
      (WriteOutcome.openFails "permission denied")).1.files getStatsPath = none ∧
    LoadStats (SaveStats earlierStats FS.empty WriteOutcome.ok
      (WriteOutcome.openFails "permission denied")).1
      = .error "stats file not found, run initialize first" ∧
    (∃ data, marshal earlierStats = .ok data ∧
      (SaveStats earlierStats FS.empty WriteOutcome.ok
        (WriteOutcome.shortWrite "no space left on device")).1.files backupPath
        = some (FileData.doc data)) ∧
    LoadStats (SaveStats earlierStats FS.empty WriteOutcome.ok
      (WriteOutcome.shortWrite "no space left on device")).1
      = .error "parsing stats file: invalid character" := by
  obtain ⟨d1, hm1, hb1, he1⟩ := interrupted_save (WriteOutcome.openFails "permission denied")
  obtain ⟨d2, hm2, hb2, he2⟩ :=
    interrupted_save (WriteOutcome.shortWrite "no space left on device")
  have hc1 : (SaveStats earlierStats FS.empty WriteOutcome.ok
      (WriteOutcome.openFails "permission denied")).1.files getStatsPath = none := by
    rw [he1, writeStatsToPath_openFails,
      writeStatsToPath_other earlierStats backupPath getStatsPath FS.empty WriteOutcome.ok
        (fun h => backupPath_ne_statsPath h.symm)]
    rfl
  have hc2 : (SaveStats earlierStats FS.empty WriteOutcome.ok
      (WriteOutcome.shortWrite "no space left on device")).1.files getStatsPath
      = some FileData.torn := by
    rw [he2]
    exact writeStatsToPath_shortWrite earlierStats getStatsPath _ _ d2 hm2
  refine ⟨⟨d1, hm1, hb1⟩, hc1, ?_, ⟨d2, hm2, hb2⟩, ?_⟩
  · simp [LoadStats, hc1]
  · simp [LoadStats, hc2, unmarshal]

/-! ### Restart -/

theorem InitializeStats_fresh (h : Host) (fs fs1 : FS) (algorithm : GoString) (initialSize : Nat)
    (o : WriteOutcome) (stats : ZramStats)
    (hr : InitializeStats h fs algorithm initialSize o = (fs1, .ok stats)) :
    ∃ memTotal, getMemTotal h = .ok memTotal ∧
      stats = freshStats memTotal (getKernelVersion h) h.now algorithm initialSize := by
  unfold InitializeStats at hr
  cases hmk : h.mkdirError with
  | some e => simp [hmk] at hr
  | none =>
    cases hmem : getMemTotal h with
    | error e => simp [hmk, hmem] at hr
    | ok memTotal =>
      refine ⟨memTotal, rfl, ?_⟩
      cases hf : fs.files getStatsPath with
      | some d =>
        simp [hmk, hmem, hf] at hr
        exact hr.2.symm
      | none =>
        simp only [hmk, hmem, hf] at hr
        generalize writeStats (freshStats memTotal (getKernelVersion h) h.now algorithm
          initialSize) fs o = r at hr
        obtain ⟨fs2, res⟩ := r
        cases res with
        | error e => simp at hr
        | ok u =>
          simp at hr
          exact hr.2.symm

/-- C1 fails on the code: `InitializeStats` never reads the stored file and `main` never
calls `LoadStats`. With a canonical file that stores `sample_count = 5`, the statistics
the loop owns after the restart have `sample_count = 0`; after the first collection
cycle the file stores `sample_count = 1`, and after a shutdown right after the restart
it stores `sample_count = 0`. -/
theorem restart_discards_history :
    storedSampleCount earlierFS = some 5 ∧
    (startCollector exampleSysfs exampleHost earlierFS 0 WriteOutcome.ok).toOption.map
        (fun r => r.1.CompressionStats.SampleCount) = some 0 ∧
    restartThenTick.bind storedSampleCount = some 1 ∧
    restartThenShutdown.bind storedSampleCount = some 0 :=
  ⟨by decide!, by decide!, by decide!, by decide!⟩
